import Mathlib

/-!
# Dashboard bucketing (`server/routes/dashboard.js`)

A shallow embedding of `buildBuckets` and of the folding loops of the
`/products` and `/visitors` handlers, together with the part of the
ECMAScript `Date` object and of `date-fns` they call.

Modelling conventions.

* A `Date` is its time value, an `Int` of milliseconds.  The time zone of the
  process is taken to have a fixed offset (no daylight-saving transitions), so
  that the local wall clock is the time value shifted by a constant; the
  embedding counts milliseconds from local `1970-01-01T00:00:00.000`.
  `a <= b` on two `Date`s compares the time values.
* The calendar is the proleptic Gregorian calendar of ECMA-262
  (`DayFromYear`, `YearFromTime`, `MonthFromTime`, `DateFromTime`, `MakeDay`).
* `Number(r.total)` is an integer (a sum of view counts), modelled in `Int`.
* The object `dayMap` is an association list in which the most recent
  assignment to a key comes first.
* A `while` loop is a function with a fuel argument; the caller passes
  `loopBound`, and `buildBucketsLoop_fuel` and `foldDaysLoop_eq` show that this
  fuel is never exhausted.
* A second embedding of `buildBuckets` and of the products folding loop
  (`buildBucketsZ`, `foldBucketZ`) drops two of these conventions: its time
  values are UTC, read through a `Zone` whose offset may change once, and its
  totals are `Number`s, exact within ±2^53 only.  With a fixed offset of 0 the
  functions of the folding loop coincide in both embeddings (`zone_zero_agrees`).
-/

namespace Dashboard

/-! ## ECMA-262 day and calendar arithmetic -/

/-- Milliseconds per day (`msPerDay` of ECMA-262). -/
def msPerDay : Int := 86400000

/-- Day number of a time value: `Day(t) = floor(t / msPerDay)`. -/
def dayOf (t : Int) : Int := t / msPerDay

/-- Milliseconds elapsed since the start of the day: `TimeWithinDay(t)`. -/
def timeWithinDay (t : Int) : Int := t % msPerDay

/-- Time value of a day number and a time within the day: `MakeDate(day, time)`. -/
def makeDate (day time : Int) : Int := day * msPerDay + time

/-- Day number of the first day of year `y`: `DayFromYear(y)`. -/
def dayFromYear (y : Int) : Int :=
  365 * (y - 1970) + (y - 1969) / 4 - (y - 1901) / 100 + (y - 1601) / 400

/-- Leap years of the Gregorian calendar (`InLeapYear`). -/
def isLeapYear (y : Int) : Bool :=
  y % 4 = 0 && (y % 100 != 0 || y % 400 = 0)

/-- The year containing day number `n`: the largest `y` with
`DayFromYear(y) ≤ n` (`YearFromTime`), found from the mean year length of
365.2425 days and one step of adjustment. -/
def yearFromDay (n : Int) : Int :=
  let y := 1970 + (400 * n) / 146097
  if n < dayFromYear y then y - 1
  else if dayFromYear (y + 1) ≤ n then y + 1
  else y

/-- Number of days of the year that precede month `m` (0 = January); `m = 12`
gives the length of the year.  This is the table of `MonthFromTime`. -/
def monthOffset (leap : Bool) (m : Int) : Int :=
  let l : Int := if leap then 1 else 0
  if m ≤ 0 then 0
  else if m = 1 then 31
  else if m = 2 then 59 + l
  else if m = 3 then 90 + l
  else if m = 4 then 120 + l
  else if m = 5 then 151 + l
  else if m = 6 then 181 + l
  else if m = 7 then 212 + l
  else if m = 8 then 243 + l
  else if m = 9 then 273 + l
  else if m = 10 then 304 + l
  else if m = 11 then 334 + l
  else 365 + l

/-- Month (0 = January .. 11 = December) of the day `d` within a year
(`MonthFromTime`). -/
def monthFromDayWithinYear (leap : Bool) (d : Int) : Int :=
  if d < monthOffset leap 1 then 0
  else if d < monthOffset leap 2 then 1
  else if d < monthOffset leap 3 then 2
  else if d < monthOffset leap 4 then 3
  else if d < monthOffset leap 5 then 4
  else if d < monthOffset leap 6 then 5
  else if d < monthOffset leap 7 then 6
  else if d < monthOffset leap 8 then 7
  else if d < monthOffset leap 9 then 8
  else if d < monthOffset leap 10 then 9
  else if d < monthOffset leap 11 then 10
  else 11

/-- `DayWithinYear` of a day number. -/
def dayWithinYear (n : Int) : Int := n - dayFromYear (yearFromDay n)

/-- Month of a day number (0 = January). -/
def monthFromDay (n : Int) : Int :=
  monthFromDayWithinYear (isLeapYear (yearFromDay n)) (dayWithinYear n)

/-- Day of the month (1 ..) of a day number (`DateFromTime`). -/
def dateFromDay (n : Int) : Int :=
  dayWithinYear n - monthOffset (isLeapYear (yearFromDay n)) (monthFromDay n) + 1

/-- Number of days in month `m` (0 = January) of year `y`. -/
def daysInMonth (y m : Int) : Int :=
  if m = 1 then (if isLeapYear y then 29 else 28)
  else if m = 3 ∨ m = 5 ∨ m = 8 ∨ m = 10 then 30
  else 31

/-- `MakeDay(year, month, date)`: the day number of the given date, where a
month outside 0..11 carries into the year and a date outside the month
carries into the neighbouring months. -/
def makeDay (year month date : Int) : Int :=
  let ym := year + month / 12
  let mn := month % 12
  dayFromYear ym + monthOffset (isLeapYear ym) mn + date - 1

/-! ## `Date` methods -/

/-- `Date.prototype.getFullYear`. -/
def getFullYear (t : Int) : Int := yearFromDay (dayOf t)

/-- `Date.prototype.getMonth` (0 = January). -/
def getMonth (t : Int) : Int := monthFromDay (dayOf t)

/-- `Date.prototype.getDate` (day of the month). -/
def getDate (t : Int) : Int := dateFromDay (dayOf t)

/-- `Date.prototype.getDay` (0 = Sunday .. 6 = Saturday); day 0 is a Thursday. -/
def getDay (t : Int) : Int := (dayOf t + 4) % 7

/-- `Date.prototype.setDate(d)`: same year, month and time of day, day of the
month `d`. -/
def setDate (t d : Int) : Int :=
  makeDate (makeDay (getFullYear t) (getMonth t) d) (timeWithinDay t)

/-- `Date.prototype.setFullYear(y, m, d)`: keeps the time of day. -/
def setFullYear (t y m d : Int) : Int :=
  makeDate (makeDay y m d) (timeWithinDay t)

/-- `Date.prototype.setHours(h, min, s, ms)`: keeps the day. -/
def setHours (t h mi s ms : Int) : Int :=
  makeDate (dayOf t) (((h * 60 + mi) * 60 + s) * 1000 + ms)

/-! ## `date-fns` -/

/-- `startOfDay(date)`: `date.setHours(0, 0, 0, 0)`. -/
def startOfDay (t : Int) : Int := setHours t 0 0 0 0

/-- `endOfDay(date)`: `date.setHours(23, 59, 59, 999)`. -/
def endOfDay (t : Int) : Int := setHours t 23 59 59 999

/-- `startOfWeek(date, { weekStartsOn })`. -/
def startOfWeek (t : Int) (weekStartsOn : Int) : Int :=
  let day := getDay t
  let diff := (if day < weekStartsOn then 7 else 0) + day - weekStartsOn
  setHours (setDate t (getDate t - diff)) 0 0 0 0

/-- `endOfWeek(date, { weekStartsOn })`. -/
def endOfWeek (t : Int) (weekStartsOn : Int) : Int :=
  let day := getDay t
  let diff := (if day < weekStartsOn then -7 else 0) + 6 - (day - weekStartsOn)
  setHours (setDate t (getDate t + diff)) 23 59 59 999

/-- `startOfMonth(date)`: `setDate(1)` then `setHours(0, 0, 0, 0)`. -/
def startOfMonth (t : Int) : Int :=
  setHours (setDate t 1) 0 0 0 0

/-- `endOfMonth(date)`: `setFullYear(year, month + 1, 0)` then
`setHours(23, 59, 59, 999)`. -/
def endOfMonth (t : Int) : Int :=
  let month := getMonth t
  setHours (setFullYear t (getFullYear t) (month + 1) 0) 23 59 59 999

/-- `addDays(date, amount)`: `date.setDate(date.getDate() + amount)`. -/
def addDays (t amount : Int) : Int := setDate t (getDate t + amount)

/-- One decimal digit as a character. -/
def digitChar (n : Nat) : Char := Char.ofNat (48 + n % 10)

/-- `addLeadingZeros(n, 2)` for the month and the day of the month. -/
def pad2 (n : Nat) : String :=
  if n < 10 then String.mk [digitChar 0, digitChar n] else toString n

/-- `addLeadingZeros(n, 4)` for the year. -/
def pad4 (n : Nat) : String :=
  if n < 10 then String.mk [digitChar 0, digitChar 0, digitChar 0, digitChar n]
  else if n < 100 then String.mk [digitChar 0, digitChar 0] ++ toString n
  else if n < 1000 then String.mk [digitChar 0] ++ toString n
  else toString n

/-- `format(date, "yyyy-MM-dd")`.  The token `yyyy` prints the year `y` when
`y > 0` and `1 - y` otherwise, padded to four digits. -/
def format (t : Int) : String :=
  let signedYear := getFullYear t
  let year := if signedYear > 0 then signedYear else 1 - signedYear
  pad4 year.toNat ++ "-" ++ pad2 (getMonth t + 1).toNat ++ "-" ++ pad2 (getDate t).toNat

/-! ## `buildBuckets` -/

/-- A bucket `{ start, end, total }` as pushed by `buildBuckets`. -/
structure Bucket where
  start : Int
  end_ : Int
  total : Int
  deriving DecidableEq, Repr

/-- The aligned start of the bucket containing `cur`:
`bucket === "month" ? startOfMonth(cur) : bucket === "week" ?
startOfWeek(cur, { weekStartsOn: 1 }) : startOfDay(cur)`. -/
def bucketStart (bucket : String) (cur : Int) : Int :=
  if bucket = "month" then startOfMonth cur
  else if bucket = "week" then startOfWeek cur 1
  else startOfDay cur

/-- The aligned end of the bucket starting at `s`:
`bucket === "month" ? endOfMonth(s) : bucket === "week" ?
endOfWeek(s, { weekStartsOn: 1 }) : endOfDay(s)`. -/
def bucketEnd (bucket : String) (s : Int) : Int :=
  if bucket = "month" then endOfMonth s
  else if bucket = "week" then endOfWeek s 1
  else endOfDay s

/-- The `while (cur <= end)` loop of `buildBuckets`, run for at most `fuel`
iterations. -/
def buildBucketsLoop (bucket : String) (end_ : Int) : Nat → Int → List Bucket
  | 0, _ => []
  | fuel + 1, cur =>
    if cur ≤ end_ then
      let s := bucketStart bucket cur
      let e := bucketEnd bucket s
      { start := s, end_ := e, total := 0 } :: buildBucketsLoop bucket end_ fuel (addDays e 1)
    else []

/-- Number of iterations that the loop of `buildBuckets` cannot exceed when it
starts at `cur`: every iteration moves the cursor at least one day forward. -/
def loopBound (cur end_ : Int) : Nat := ((end_ - cur) / msPerDay + 1).toNat

/-- `buildBuckets(start, end, bucket)`. -/
def buildBuckets (start end_ : Int) (bucket : String) : List Bucket :=
  let cur := bucketStart bucket start
  buildBucketsLoop bucket end_ (loopBound cur end_) cur

/-! ## The `/products` handler -/

/-- A row `{ day, total }` of the products query, with `String(r.day)` and
`Number(r.total)`. -/
abbrev ProductRow := String × Int

/-- The effect of `rows.forEach(r => { dayMap[String(r.day)] = Number(r.total); })`
on an empty `dayMap`: a later row for the same key shadows an earlier one. -/
def buildDayMap {α : Type} (rows : List (String × α)) : List (String × α) :=
  rows.foldl (fun dayMap r => (r.1, r.2) :: dayMap) []

/-- One iteration body's update `if (dayMap[key]) b.total += dayMap[key]`:
an absent key and the value 0 are falsy. -/
def addIfTruthy (dayMap : List (String × Int)) (key : String) (total : Int) : Int :=
  match dayMap.lookup key with
  | some v => if v ≠ 0 then total + v else total
  | none => total

/-- The inner loop `while (cur <= b.end && cur <= end)` of the products
handler for one bucket, run for at most `fuel` iterations; returns `b.total`. -/
def foldDaysLoop (dayMap : List (String × Int)) (bEnd end_ : Int) : Nat → Int → Int → Int
  | 0, _, total => total
  | fuel + 1, cur, total =>
    if cur ≤ bEnd ∧ cur ≤ end_ then
      foldDaysLoop dayMap bEnd end_ fuel (addDays cur 1) (addIfTruthy dayMap (format cur) total)
    else total

/-- The body of `for (const b of buckets)` in the products handler. -/
def foldBucket (dayMap : List (String × Int)) (end_ : Int) (b : Bucket) : Bucket :=
  let cur := startOfDay b.start
  { b with total := foldDaysLoop dayMap b.end_ end_ (loopBound cur (min b.end_ end_)) cur b.total }

/-- A record `{ startDate, endDate, count }` of the products response. -/
structure ProductRecord where
  startDate : String
  endDate : String
  count : Int
  deriving DecidableEq, Repr

/-- The buckets of the products handler after the folding loop, for the
resolved range `start`, `end` and the rows returned by the query. -/
def productBuckets (start end_ : Int) (bucket : String) (rows : List ProductRow) : List Bucket :=
  let dayMap := buildDayMap rows
  (buildBuckets start end_ bucket).map (foldBucket dayMap end_)

/-- The JSON body of the products response. -/
def products (start end_ : Int) (bucket : String) (rows : List ProductRow) : List ProductRecord :=
  (productBuckets start end_ bucket rows).map fun b =>
    { startDate := format b.start, endDate := format b.end_, count := b.total }

/-! ## The `/visitors` handler -/

/-- The value `{ hits, unique }` stored in `dayMap` by the visitors handler. -/
structure VisitorDay where
  hits : Int
  unique : Int
  deriving DecidableEq, Repr

/-- A row of the visitors query: `String(r.day)` with `Number(r.hits)` and
`Number(r.uniqueVisitors)`. -/
abbrev VisitorRow := String × VisitorDay

/-- A bucket of the visitors handler, with the fields `hits` and `unique` it
adds to the bucket. -/
structure VisitorBucket where
  start : Int
  end_ : Int
  total : Int
  hits : Int
  unique : Int
  deriving DecidableEq, Repr

/-- The inner loop `while (cur <= b.end && cur <= end)` of the visitors
handler, run for at most `fuel` iterations; returns `(b.hits, b.unique)`.  An
object stored in `dayMap` is always truthy. -/
def foldVisitorDaysLoop (dayMap : List (String × VisitorDay)) (bEnd end_ : Int) :
    Nat → Int → Int × Int → Int × Int
  | 0, _, acc => acc
  | fuel + 1, cur, acc =>
    if cur ≤ bEnd ∧ cur ≤ end_ then
      foldVisitorDaysLoop dayMap bEnd end_ fuel (addDays cur 1)
        (match dayMap.lookup (format cur) with
         | some v => (acc.1 + v.hits, acc.2 + v.unique)
         | none => acc)
    else acc

/-- The body of `for (const b of buckets)` in the visitors handler. -/
def foldVisitorBucket (dayMap : List (String × VisitorDay)) (end_ : Int) (b : Bucket) :
    VisitorBucket :=
  let cur := startOfDay b.start
  let r := foldVisitorDaysLoop dayMap b.end_ end_ (loopBound cur (min b.end_ end_)) cur (0, 0)
  { start := b.start, end_ := b.end_, total := b.total, hits := r.1, unique := r.2 }

/-- A record `{ startDate, endDate, hits, uniqueVisitors }` of the visitors
response. -/
structure VisitorRecord where
  startDate : String
  endDate : String
  hits : Int
  uniqueVisitors : Int
  deriving DecidableEq, Repr

/-- The buckets of the visitors handler after the folding loop. -/
def visitorBuckets (start end_ : Int) (bucket : String) (rows : List VisitorRow) :
    List VisitorBucket :=
  let dayMap := buildDayMap rows
  (buildBuckets start end_ bucket).map (foldVisitorBucket dayMap end_)

/-- The JSON body of the visitors response. -/
def visitors (start end_ : Int) (bucket : String) (rows : List VisitorRow) : List VisitorRecord :=
  (visitorBuckets start end_ bucket rows).map fun b =>
    { startDate := format b.start, endDate := format b.end_, hits := b.hits,
      uniqueVisitors := b.unique }

/-- `parseISO` of a `yyyy-MM-dd` string yields local midnight of that day: a
time value that is a whole number of days. -/
def IsMidnight (t : Int) : Prop := timeWithinDay t = 0

instance (t : Int) : Decidable (IsMidnight t) := by
  unfold IsMidnight; infer_instance

/-! ## Query parameters of the handlers -/

/-- The value of a query parameter as the handlers test it (`endDate ? … : …`):
an absent parameter and the empty string are falsy. -/
def queryGiven (q : Option String) : Option String :=
  match q with
  | some s => if s = "" then none else some s
  | none => none

/-- The destructuring default `bucket = "day"`: it applies to an absent
parameter only. -/
def bucketParam (q : Option String) : String :=
  match q with
  | some b => b
  | none => "day"

/-- The range `(start, end)` resolved by the products handler from the query
and the current instant `now` (`new Date()`); `parseISO` is the `date-fns`
parser. -/
def productsRange (parseISO : String → Int) (startDate endDate : Option String) (now : Int) :
    Int × Int :=
  let end_ := match queryGiven endDate with
    | some e => parseISO e
    | none => now
  let start := match queryGiven startDate with
    | some s => parseISO s
    | none => addDays end_ (-29)
  (start, end_)

/-- The range `(start, end)` resolved by the visitors handler. -/
def visitorsRange (parseISO : String → Int) (startDate endDate : Option String) (now : Int) :
    Int × Int :=
  let end_ := match queryGiven endDate with
    | some e => parseISO e
    | none => now
  let start := match queryGiven startDate with
    | some s => parseISO s
    | none => addDays end_ (-29)
  (start, end_)

/-! ## Auxiliary definitions for the statements -/

/-- First day (day number) of the month containing day `n`. -/
def firstDayOfMonth (n : Int) : Int := n - (dateFromDay n - 1)

/-- Last day (day number) of the month containing day `n`. -/
def lastDayOfMonth (n : Int) : Int :=
  firstDayOfMonth n + daysInMonth (yearFromDay n) (monthFromDay n) - 1

/-- Day number of the first day of the bucket that contains day `n`. -/
def bucketFirstDay (bucket : String) (n : Int) : Int :=
  if bucket = "month" then firstDayOfMonth n
  else if bucket = "week" then n - (n + 3) % 7
  else n

/-- Day number of the last day of the bucket that contains day `n`. -/
def bucketLastDay (bucket : String) (n : Int) : Int :=
  if bucket = "month" then lastDayOfMonth n
  else if bucket = "week" then n + 6 - (n + 3) % 7
  else n

/-- Consecutive buckets: the next one starts on the day after the previous
one ends, and each bucket starts no later than it ends. -/
def Adjacent (a b : Bucket) : Prop :=
  dayOf a.start ≤ dayOf a.end_ ∧ dayOf a.end_ + 1 = dayOf b.start ∧ dayOf b.start ≤ dayOf b.end_

/-- The `yyyy-MM-dd` key of the day with number `d`. -/
def dayKey (d : Int) : String := format (makeDate d 0)

/-- Reference: the value of the row for `key`, 0 when no row has that key. -/
def rowValue (rows : List ProductRow) (key : String) : Int := (rows.lookup key).getD 0

/-- Reference sum of the spec: the values of the rows of the days `lo .. hi`. -/
def referenceTotal (rows : List ProductRow) (lo hi : Int) : Int :=
  ∑ d in Finset.Icc lo hi, rowValue rows (dayKey d)

/-- The rows of a row list that belong to day `d`, in their order. -/
def rowsFor {α : Type} (rows : List (String × α)) (d : Int) : List (String × α) :=
  rows.filter fun r => r.1 == dayKey d

/-- The products rows (day, hits) read off the visitor rows. -/
def hitsRows (rows : List VisitorRow) : List ProductRow := rows.map fun r => (r.1, r.2.hits)

/-- The products rows (day, uniqueVisitors) read off the visitor rows. -/
def uniqueRows (rows : List VisitorRow) : List ProductRow := rows.map fun r => (r.1, r.2.unique)

/-! ## The handlers in a time zone with a change of offset, with `Number` totals -/

/-- A time zone seen over a period that holds one change of its UTC offset:
the offset `local - UTC` in milliseconds before and from the UTC instant
`transition` on.  `before = after` is a zone with a fixed offset. -/
structure Zone where
  before : Int
  after : Int
  transition : Int
  deriving DecidableEq, Repr

/-- Offset in effect at the UTC time value `t`: `LocalTZA(t, true)`. -/
def localTZA (z : Zone) (t : Int) : Int := if t < z.transition then z.before else z.after

/-- Wall-clock value of a UTC time value: `LocalTime(t)`. -/
def localTime (z : Zone) (t : Int) : Int := t + localTZA z t

/-- UTC time value of a wall-clock value: `UTC(t) = t - LocalTZA(t, false)`.  A
wall-clock value that the change of offset skips or repeats is read with the
offset before the change (ECMA-262). -/
def utcOfLocal (z : Zone) (tl : Int) : Int :=
  if tl - z.before < z.transition then tl - z.before
  else if z.transition ≤ tl - z.after then tl - z.after
  else tl - z.before

/-- `Date.prototype.setDate` on a UTC time value. -/
def setDateZ (z : Zone) (t d : Int) : Int := utcOfLocal z (setDate (localTime z t) d)

/-- `Date.prototype.setFullYear` on a UTC time value. -/
def setFullYearZ (z : Zone) (t y m d : Int) : Int :=
  utcOfLocal z (setFullYear (localTime z t) y m d)

/-- `Date.prototype.setHours` on a UTC time value. -/
def setHoursZ (z : Zone) (t h mi s ms : Int) : Int :=
  utcOfLocal z (setHours (localTime z t) h mi s ms)

/-- `startOfDay(date)` in the zone. -/
def startOfDayZ (z : Zone) (t : Int) : Int := setHoursZ z t 0 0 0 0

/-- `endOfDay(date)` in the zone. -/
def endOfDayZ (z : Zone) (t : Int) : Int := setHoursZ z t 23 59 59 999

/-- `startOfWeek(date, { weekStartsOn })` in the zone. -/
def startOfWeekZ (z : Zone) (t : Int) (weekStartsOn : Int) : Int :=
  let day := getDay (localTime z t)
  let diff := (if day < weekStartsOn then 7 else 0) + day - weekStartsOn
  setHoursZ z (setDateZ z t (getDate (localTime z t) - diff)) 0 0 0 0

/-- `endOfWeek(date, { weekStartsOn })` in the zone. -/
def endOfWeekZ (z : Zone) (t : Int) (weekStartsOn : Int) : Int :=
  let day := getDay (localTime z t)
  let diff := (if day < weekStartsOn then -7 else 0) + 6 - (day - weekStartsOn)
  setHoursZ z (setDateZ z t (getDate (localTime z t) + diff)) 23 59 59 999

/-- `startOfMonth(date)` in the zone. -/
def startOfMonthZ (z : Zone) (t : Int) : Int := setHoursZ z (setDateZ z t 1) 0 0 0 0

/-- `endOfMonth(date)` in the zone. -/
def endOfMonthZ (z : Zone) (t : Int) : Int :=
  let month := getMonth (localTime z t)
  setHoursZ z (setFullYearZ z t (getFullYear (localTime z t)) (month + 1) 0) 23 59 59 999

/-- `addDays(date, amount)` in the zone. -/
def addDaysZ (z : Zone) (t amount : Int) : Int :=
  setDateZ z t (getDate (localTime z t) + amount)

/-- `format(date, "yyyy-MM-dd")` in the zone. -/
def formatZ (z : Zone) (t : Int) : String := format (localTime z t)

/-- The aligned start of the bucket containing `cur`, in the zone. -/
def bucketStartZ (z : Zone) (bucket : String) (cur : Int) : Int :=
  if bucket = "month" then startOfMonthZ z cur
  else if bucket = "week" then startOfWeekZ z cur 1
  else startOfDayZ z cur

/-- The aligned end of the bucket starting at `s`, in the zone. -/
def bucketEndZ (z : Zone) (bucket : String) (s : Int) : Int :=
  if bucket = "month" then endOfMonthZ z s
  else if bucket = "week" then endOfWeekZ z s 1
  else endOfDayZ z s

/-- Fuel for the loops in a zone: the number of hours from the cursor to the
end of the loop, and two. -/
def zoneLoopBound (cur end_ : Int) : Nat := ((end_ - cur) / 3600000).toNat + 2

/-- The `while (cur <= end)` loop of `buildBuckets` in the zone; `none` when
the fuel runs out before the loop ends. -/
def buildBucketsLoopZ (z : Zone) (bucket : String) (end_ : Int) : Nat → Int → Option (List Bucket)
  | 0, _ => none
  | fuel + 1, cur =>
    if cur ≤ end_ then
      let s := bucketStartZ z bucket cur
      let e := bucketEndZ z bucket s
      (buildBucketsLoopZ z bucket end_ fuel (addDaysZ z e 1)).map
        fun rest => { start := s, end_ := e, total := 0 } :: rest
    else some []

/-- `buildBuckets(start, end, bucket)` in the zone. -/
def buildBucketsZ (z : Zone) (start end_ : Int) (bucket : String) : Option (List Bucket) :=
  let cur := bucketStartZ z bucket start
  buildBucketsLoopZ z bucket end_ (zoneLoopBound cur end_) cur

/-- `a + b` on two `Number`s that hold integers: the exact sum when it lies
within ±2^53, where a double holds every integer; `none` for a sum beyond
that, whose rounding is not modelled. -/
def numberAdd (a b : Int) : Option Int :=
  if -9007199254740992 ≤ a + b ∧ a + b ≤ 9007199254740992 then some (a + b) else none

/-- The update `if (dayMap[key]) b.total += dayMap[key]` on `Number`s. -/
def addIfTruthyNumber (dayMap : List (String × Int)) (key : String) (total : Int) : Option Int :=
  match dayMap.lookup key with
  | some v => if v ≠ 0 then numberAdd total v else some total
  | none => some total

/-- The inner loop of the products handler in the zone, with `Number` totals;
`none` when the fuel runs out or a total leaves the exact range. -/
def foldDaysLoopZ (z : Zone) (dayMap : List (String × Int)) (bEnd end_ : Int) :
    Nat → Int → Int → Option Int
  | 0, _, _ => none
  | fuel + 1, cur, total =>
    if cur ≤ bEnd ∧ cur ≤ end_ then
      match addIfTruthyNumber dayMap (formatZ z cur) total with
      | some t => foldDaysLoopZ z dayMap bEnd end_ fuel (addDaysZ z cur 1) t
      | none => none
    else some total

/-- The value of `b.total` after the body of `for (const b of buckets)` of the
products handler, in the zone. -/
def foldBucketZ (z : Zone) (dayMap : List (String × Int)) (end_ : Int) (b : Bucket) :
    Option Int :=
  let cur := startOfDayZ z b.start
  foldDaysLoopZ z dayMap b.end_ end_ (zoneLoopBound cur (min b.end_ end_)) cur b.total

/-- Calendar day number of a UTC time value in the zone. -/
def dayOfZ (z : Zone) (t : Int) : Int := dayOf (localTime z t)

/-- Africa/Cairo around 26 April 2024: UTC+2 until 2024-04-25T22:00:00Z, when
local midnight is skipped, and UTC+3 from then on. -/
def cairo2024 : Zone := { before := 7200000, after := 10800000, transition := 1714082400000 }

/-! ## Facts about the calendar -/

theorem dayFromYear_succ (y : Int) :
    dayFromYear (y + 1) = dayFromYear y + 365 + (if isLeapYear y then 1 else 0) := by
  unfold dayFromYear isLeapYear
  by_cases h4 : y % 4 = 0 <;> by_cases h100 : y % 100 = 0 <;> by_cases h400 : y % 400 = 0 <;>
    simp [h4, h100, h400] <;> omega

theorem dayFromYear_le {a b : Int} (h : a ≤ b) : dayFromYear a ≤ dayFromYear b := by
  unfold dayFromYear; omega

theorem yearFromDay_spec (n : Int) :
    dayFromYear (yearFromDay n) ≤ n ∧ n < dayFromYear (yearFromDay n + 1) := by
  unfold yearFromDay
  simp only
  split_ifs with h1 h2
  · refine ⟨?_, by simpa using h1⟩
    unfold dayFromYear at *; omega
  · refine ⟨h2, ?_⟩
    unfold dayFromYear at *; omega
  · exact ⟨by omega, by omega⟩

theorem yearFromDay_eq {n y : Int} (h1 : dayFromYear y ≤ n) (h2 : n < dayFromYear (y + 1)) :
    yearFromDay n = y := by
  obtain ⟨s1, s2⟩ := yearFromDay_spec n
  rcases lt_trichotomy (yearFromDay n) y with h | h | h
  · have := dayFromYear_le (a := yearFromDay n + 1) (b := y) (by omega)
    omega
  · exact h
  · have := dayFromYear_le (a := y + 1) (b := yearFromDay n) (by omega)
    omega

/-- The values of the month table. -/
theorem monthOffset_values (leap : Bool) :
    monthOffset leap 0 = 0 ∧ monthOffset leap 1 = 31 ∧
    monthOffset leap 2 = 59 + (if leap then 1 else 0) ∧
    monthOffset leap 3 = 90 + (if leap then 1 else 0) ∧
    monthOffset leap 4 = 120 + (if leap then 1 else 0) ∧
    monthOffset leap 5 = 151 + (if leap then 1 else 0) ∧
    monthOffset leap 6 = 181 + (if leap then 1 else 0) ∧
    monthOffset leap 7 = 212 + (if leap then 1 else 0) ∧
    monthOffset leap 8 = 243 + (if leap then 1 else 0) ∧
    monthOffset leap 9 = 273 + (if leap then 1 else 0) ∧
    monthOffset leap 10 = 304 + (if leap then 1 else 0) ∧
    monthOffset leap 11 = 334 + (if leap then 1 else 0) ∧
    monthOffset leap 12 = 365 + (if leap then 1 else 0) := by
  cases leap <;> decide

theorem monthOffset_twelve (y : Int) :
    dayFromYear (y + 1) = dayFromYear y + monthOffset (isLeapYear y) 12 := by
  rw [dayFromYear_succ, (monthOffset_values _).2.2.2.2.2.2.2.2.2.2.2.2]
  omega

theorem monthOffset_succ (y m : Int) (h0 : 0 ≤ m) (h1 : m ≤ 11) :
    monthOffset (isLeapYear y) (m + 1) = monthOffset (isLeapYear y) m + daysInMonth y m := by
  have hm : m = 0 ∨ m = 1 ∨ m = 2 ∨ m = 3 ∨ m = 4 ∨ m = 5 ∨ m = 6 ∨ m = 7 ∨ m = 8 ∨ m = 9 ∨
      m = 10 ∨ m = 11 := by omega
  unfold daysInMonth
  rcases hm with h | h | h | h | h | h | h | h | h | h | h | h <;> subst h <;>
    cases isLeapYear y <;> decide

theorem daysInMonth_bounds (y m : Int) : 28 ≤ daysInMonth y m ∧ daysInMonth y m ≤ 31 := by
  unfold daysInMonth
  split_ifs <;> omega

theorem monthOffset_step (leap : Bool) (m : Int) (h0 : 0 ≤ m) (h1 : m ≤ 11) :
    monthOffset leap m < monthOffset leap (m + 1) := by
  have hm : m = 0 ∨ m = 1 ∨ m = 2 ∨ m = 3 ∨ m = 4 ∨ m = 5 ∨ m = 6 ∨ m = 7 ∨ m = 8 ∨ m = 9 ∨
      m = 10 ∨ m = 11 := by omega
  rcases hm with h | h | h | h | h | h | h | h | h | h | h | h <;> subst h <;>
    cases leap <;> decide

theorem monthOffset_mono (leap : Bool) (a : Int) (h0 : 0 ≤ a) (n : Nat) :
    a + n ≤ 12 → monthOffset leap a ≤ monthOffset leap (a + n) := by
  induction n with
  | zero => intro _; simp
  | succ k ih =>
    intro h
    have e : a + ((k + 1 : Nat) : Int) = (a + k) + 1 := by push_cast; ring
    rw [e]
    have s := monthOffset_step leap (a + k) (by omega) (by omega)
    have := ih (by omega)
    omega

theorem monthOffset_le (leap : Bool) {a b : Int} (h0 : 0 ≤ a) (hab : a ≤ b) (hb : b ≤ 12) :
    monthOffset leap a ≤ monthOffset leap b := by
  have := monthOffset_mono leap a h0 (b - a).toNat (by omega)
  rwa [show a + ((b - a).toNat : Int) = b by omega] at this

theorem monthFromDayWithinYear_spec (leap : Bool) (d : Int) (h0 : 0 ≤ d)
    (h1 : d < monthOffset leap 12) :
    0 ≤ monthFromDayWithinYear leap d ∧ monthFromDayWithinYear leap d ≤ 11 ∧
      monthOffset leap (monthFromDayWithinYear leap d) ≤ d ∧
      d < monthOffset leap (monthFromDayWithinYear leap d + 1) := by
  have v0 : monthOffset leap 0 ≤ d := by rw [(monthOffset_values leap).1]; exact h0
  unfold monthFromDayWithinYear
  by_cases c1 : d < monthOffset leap 1
  · rw [if_pos c1]
    exact ⟨by decide, by decide, v0, c1⟩
  rw [if_neg c1]
  by_cases c2 : d < monthOffset leap 2
  · rw [if_pos c2]
    exact ⟨by decide, by decide, not_lt.mp c1, c2⟩
  rw [if_neg c2]
  by_cases c3 : d < monthOffset leap 3
  · rw [if_pos c3]
    exact ⟨by decide, by decide, not_lt.mp c2, c3⟩
  rw [if_neg c3]
  by_cases c4 : d < monthOffset leap 4
  · rw [if_pos c4]
    exact ⟨by decide, by decide, not_lt.mp c3, c4⟩
  rw [if_neg c4]
  by_cases c5 : d < monthOffset leap 5
  · rw [if_pos c5]
    exact ⟨by decide, by decide, not_lt.mp c4, c5⟩
  rw [if_neg c5]
  by_cases c6 : d < monthOffset leap 6
  · rw [if_pos c6]
    exact ⟨by decide, by decide, not_lt.mp c5, c6⟩
  rw [if_neg c6]
  by_cases c7 : d < monthOffset leap 7
  · rw [if_pos c7]
    exact ⟨by decide, by decide, not_lt.mp c6, c7⟩
  rw [if_neg c7]
  by_cases c8 : d < monthOffset leap 8
  · rw [if_pos c8]
    exact ⟨by decide, by decide, not_lt.mp c7, c8⟩
  rw [if_neg c8]
  by_cases c9 : d < monthOffset leap 9
  · rw [if_pos c9]
    exact ⟨by decide, by decide, not_lt.mp c8, c9⟩
  rw [if_neg c9]
  by_cases c10 : d < monthOffset leap 10
  · rw [if_pos c10]
    exact ⟨by decide, by decide, not_lt.mp c9, c10⟩
  rw [if_neg c10]
  by_cases c11 : d < monthOffset leap 11
  · rw [if_pos c11]
    exact ⟨by decide, by decide, not_lt.mp c10, c11⟩
  rw [if_neg c11]
  exact ⟨by decide, by decide, not_lt.mp c11, h1⟩

theorem monthFromDayWithinYear_eq (leap : Bool) (m d : Int) (h0 : 0 ≤ m) (h1 : m ≤ 11)
    (h2 : monthOffset leap m ≤ d) (h3 : d < monthOffset leap (m + 1)) :
    monthFromDayWithinYear leap d = m := by
  have hd0 : 0 ≤ d := by
    have := monthOffset_le leap (a := 0) (b := m) (by decide) h0 (by omega)
    rw [(monthOffset_values leap).1] at this
    omega
  have hd1 : d < monthOffset leap 12 :=
    lt_of_lt_of_le h3 (monthOffset_le leap (by omega) (by omega) (by decide))
  obtain ⟨s0, s1, s2, s3⟩ := monthFromDayWithinYear_spec leap d hd0 hd1
  generalize monthFromDayWithinYear leap d = k at *
  rcases lt_trichotomy k m with h | h | h
  · have := monthOffset_le leap (a := k + 1) (b := m) (by omega) (by omega) (by omega)
    omega
  · exact h
  · have := monthOffset_le leap (a := m + 1) (b := k) (by omega) (by omega) (by omega)
    omega

theorem dayOf_makeDate (d r : Int) (h0 : 0 ≤ r) (h1 : r < 86400000) :
    dayOf (makeDate d r) = d := by
  unfold dayOf makeDate msPerDay; omega

theorem timeWithinDay_makeDate (d r : Int) (h0 : 0 ≤ r) (h1 : r < 86400000) :
    timeWithinDay (makeDate d r) = r := by
  unfold timeWithinDay makeDate msPerDay; omega

theorem makeDate_dayOf (t : Int) : makeDate (dayOf t) (timeWithinDay t) = t := by
  unfold timeWithinDay dayOf makeDate msPerDay; omega

theorem timeWithinDay_bounds (t : Int) : 0 ≤ timeWithinDay t ∧ timeWithinDay t < 86400000 := by
  unfold timeWithinDay msPerDay; omega

/-- The civil date of a day that lies in month `m` of year `y`. -/
theorem civil_of_mem (y m k : Int) (h0 : 0 ≤ m) (h1 : m ≤ 11)
    (h2 : dayFromYear y + monthOffset (isLeapYear y) m ≤ k)
    (h3 : k < dayFromYear y + monthOffset (isLeapYear y) (m + 1)) :
    yearFromDay k = y ∧ monthFromDay k = m ∧
      dateFromDay k = k - (dayFromYear y + monthOffset (isLeapYear y) m) + 1 := by
  have a0 := monthOffset_le (isLeapYear y) (a := 0) (b := m) (by decide) h0 (by omega)
  rw [(monthOffset_values _).1] at a0
  have a12 := monthOffset_le (isLeapYear y) (a := m + 1) (b := 12) (by omega) (by omega)
    (by decide)
  have hy : yearFromDay k = y :=
    yearFromDay_eq (by omega) (by rw [monthOffset_twelve]; omega)
  have hm : monthFromDay k = m := by
    unfold monthFromDay dayWithinYear
    rw [hy]
    exact monthFromDayWithinYear_eq _ m _ h0 h1 (by omega) (by omega)
  refine ⟨hy, hm, ?_⟩
  unfold dateFromDay dayWithinYear
  rw [hm, hy]
  omega

/-- Every day lies in the month that its civil date names. -/
theorem civil_bounds (n : Int) :
    0 ≤ monthFromDay n ∧ monthFromDay n ≤ 11 ∧
      dayFromYear (yearFromDay n) + monthOffset (isLeapYear (yearFromDay n)) (monthFromDay n) ≤ n ∧
      n < dayFromYear (yearFromDay n) +
        monthOffset (isLeapYear (yearFromDay n)) (monthFromDay n + 1) := by
  obtain ⟨s1, s2⟩ := yearFromDay_spec n
  rw [monthOffset_twelve] at s2
  have := monthFromDayWithinYear_spec (isLeapYear (yearFromDay n)) (dayWithinYear n)
    (by unfold dayWithinYear; omega) (by unfold dayWithinYear; omega)
  unfold monthFromDay
  unfold dayWithinYear at this ⊢
  obtain ⟨b0, b1, b2, b3⟩ := this
  exact ⟨b0, b1, by omega, by omega⟩

theorem firstDayOfMonth_eq (n : Int) :
    firstDayOfMonth n =
      dayFromYear (yearFromDay n) + monthOffset (isLeapYear (yearFromDay n)) (monthFromDay n) := by
  unfold firstDayOfMonth dateFromDay dayWithinYear; omega

theorem lastDayOfMonth_eq (n : Int) :
    lastDayOfMonth n + 1 =
      dayFromYear (yearFromDay n) +
        monthOffset (isLeapYear (yearFromDay n)) (monthFromDay n + 1) := by
  obtain ⟨b0, b1, -, -⟩ := civil_bounds n
  unfold lastDayOfMonth
  rw [firstDayOfMonth_eq, monthOffset_succ _ _ b0 b1]
  omega

theorem firstDayOfMonth_le (n : Int) : firstDayOfMonth n ≤ n := by
  rw [firstDayOfMonth_eq]; exact (civil_bounds n).2.2.1

theorem le_lastDayOfMonth (n : Int) : n ≤ lastDayOfMonth n := by
  have := lastDayOfMonth_eq n
  have := (civil_bounds n).2.2.2
  omega

theorem makeDay_civil (n d : Int) :
    makeDay (yearFromDay n) (monthFromDay n) d = firstDayOfMonth n + d - 1 := by
  obtain ⟨b0, b1, -, -⟩ := civil_bounds n
  unfold makeDay
  simp only
  rw [show monthFromDay n / 12 = 0 by omega, show monthFromDay n % 12 = monthFromDay n by omega,
    add_zero, firstDayOfMonth_eq]

theorem makeDay_next (n : Int) :
    makeDay (yearFromDay n) (monthFromDay n + 1) 0 = lastDayOfMonth n := by
  obtain ⟨b0, b1, -, -⟩ := civil_bounds n
  have hl := lastDayOfMonth_eq n
  unfold makeDay
  simp only
  by_cases h : monthFromDay n = 11
  · rw [h] at hl ⊢
    rw [show ((11 : Int) + 1) / 12 = 1 by decide, show ((11 : Int) + 1) % 12 = 0 by decide,
      (monthOffset_values _).1]
    rw [show ((11 : Int) + 1) = 12 by decide, ← monthOffset_twelve] at hl
    omega
  · rw [show (monthFromDay n + 1) / 12 = 0 by omega,
      show (monthFromDay n + 1) % 12 = monthFromDay n + 1 by omega]
    simp only [add_zero]
    omega

/-- The days of one month share year and month, and count up from 1. -/
theorem civil_of_same_month (n k : Int) (h1 : firstDayOfMonth n ≤ k) (h2 : k ≤ lastDayOfMonth n) :
    yearFromDay k = yearFromDay n ∧ monthFromDay k = monthFromDay n ∧
      dateFromDay k = k - firstDayOfMonth n + 1 := by
  obtain ⟨b0, b1, -, -⟩ := civil_bounds n
  have hl := lastDayOfMonth_eq n
  rw [firstDayOfMonth_eq] at h1 ⊢
  exact civil_of_mem _ _ k b0 b1 h1 (by omega)

/-- The day after the last day of a month is the 1st of a month. -/
theorem dateFromDay_next_month (n : Int) : dateFromDay (lastDayOfMonth n + 1) = 1 := by
  obtain ⟨b0, b1, -, -⟩ := civil_bounds n
  have hl := lastDayOfMonth_eq n
  by_cases h : monthFromDay n = 11
  · rw [h, show ((11 : Int) + 1) = 12 by decide, ← monthOffset_twelve] at hl
    have v0 := (monthOffset_values (isLeapYear (yearFromDay n + 1))).1
    have s := monthOffset_step (isLeapYear (yearFromDay n + 1)) 0 (by decide) (by decide)
    have := civil_of_mem (yearFromDay n + 1) 0 (lastDayOfMonth n + 1) (by decide) (by decide)
      (by omega) (by omega)
    rw [this.2.2]; omega
  · have s := monthOffset_step (isLeapYear (yearFromDay n)) (monthFromDay n + 1) (by omega)
      (by omega)
    have := civil_of_mem (yearFromDay n) (monthFromDay n + 1) (lastDayOfMonth n + 1) (by omega)
      (by omega) (by omega) (by omega)
    rw [this.2.2]; omega

theorem firstDayOfMonth_next (n : Int) :
    firstDayOfMonth (lastDayOfMonth n + 1) = lastDayOfMonth n + 1 := by
  unfold firstDayOfMonth
  rw [dateFromDay_next_month]; omega

/-! ## The `date-fns` functions in terms of day numbers -/

theorem startOfDay_eq (t : Int) : startOfDay t = dayOf t * 86400000 := by
  unfold startOfDay setHours makeDate msPerDay; omega

theorem endOfDay_eq (t : Int) : endOfDay t = dayOf t * 86400000 + 86399999 := by
  unfold endOfDay setHours makeDate msPerDay; omega

theorem dayOf_mul (d : Int) : dayOf (d * 86400000) = d := by
  unfold dayOf msPerDay; omega

theorem dayOf_mul_add (d : Int) : dayOf (d * 86400000 + 86399999) = d := by
  unfold dayOf msPerDay; omega

theorem setDate_eq (t d : Int) :
    setDate t d = makeDate (firstDayOfMonth (dayOf t) + d - 1) (timeWithinDay t) := by
  unfold setDate getFullYear getMonth
  rw [makeDay_civil]

theorem dayOf_setDate (t d : Int) : dayOf (setDate t d) = firstDayOfMonth (dayOf t) + d - 1 := by
  rw [setDate_eq]
  exact dayOf_makeDate _ _ (timeWithinDay_bounds t).1 (timeWithinDay_bounds t).2

theorem addDays_eq (t k : Int) : addDays t k = t + k * 86400000 := by
  unfold addDays
  rw [setDate_eq]
  unfold getDate firstDayOfMonth
  have := makeDate_dayOf t
  unfold makeDate msPerDay at *
  omega

theorem dayOf_addDays (t k : Int) : dayOf (addDays t k) = dayOf t + k := by
  rw [addDays_eq]; unfold dayOf msPerDay; omega

theorem startOfWeek_eq (t : Int) :
    startOfWeek t 1 = (dayOf t - (dayOf t + 3) % 7) * 86400000 := by
  unfold startOfWeek
  simp only
  rw [show ∀ u, setHours u 0 0 0 0 = dayOf u * 86400000 from startOfDay_eq, dayOf_setDate]
  unfold getDate getDay firstDayOfMonth
  split_ifs <;> congr 1 <;> omega

theorem endOfWeek_eq (t : Int) :
    endOfWeek t 1 = (dayOf t + 6 - (dayOf t + 3) % 7) * 86400000 + 86399999 := by
  unfold endOfWeek
  simp only
  rw [show ∀ u, setHours u 23 59 59 999 = dayOf u * 86400000 + 86399999 from endOfDay_eq,
    dayOf_setDate]
  unfold getDate getDay firstDayOfMonth
  split_ifs <;> congr 2 <;> omega

theorem startOfMonth_eq (t : Int) :
    startOfMonth t = firstDayOfMonth (dayOf t) * 86400000 := by
  unfold startOfMonth
  rw [show ∀ u, setHours u 0 0 0 0 = dayOf u * 86400000 from startOfDay_eq, dayOf_setDate]
  congr 1; omega

theorem endOfMonth_eq (t : Int) :
    endOfMonth t = lastDayOfMonth (dayOf t) * 86400000 + 86399999 := by
  unfold endOfMonth
  simp only
  rw [show ∀ u, setHours u 23 59 59 999 = dayOf u * 86400000 + 86399999 from endOfDay_eq]
  unfold setFullYear getFullYear getMonth
  rw [makeDay_next, dayOf_makeDate _ _ (timeWithinDay_bounds t).1 (timeWithinDay_bounds t).2]

theorem lastDayOfMonth_first (n : Int) : lastDayOfMonth (firstDayOfMonth n) = lastDayOfMonth n := by
  obtain ⟨hy, hm, hd⟩ := civil_of_same_month n (firstDayOfMonth n) le_rfl
    ((firstDayOfMonth_le n).trans (le_lastDayOfMonth n))
  have : firstDayOfMonth (firstDayOfMonth n) = firstDayOfMonth n := by
    have e : firstDayOfMonth (firstDayOfMonth n) =
        firstDayOfMonth n - (dateFromDay (firstDayOfMonth n) - 1) := rfl
    rw [e, hd]; omega
  unfold lastDayOfMonth
  rw [this, hy, hm]

/-! ## One iteration of the loop of `buildBuckets` -/

theorem bucketStart_eq (bucket : String) (cur : Int) :
    bucketStart bucket cur = bucketFirstDay bucket (dayOf cur) * 86400000 := by
  unfold bucketStart bucketFirstDay
  split_ifs
  · exact startOfMonth_eq cur
  · exact startOfWeek_eq cur
  · exact startOfDay_eq cur

theorem bucketEnd_bucketStart (bucket : String) (cur : Int) :
    bucketEnd bucket (bucketStart bucket cur) =
      bucketLastDay bucket (dayOf cur) * 86400000 + 86399999 := by
  rw [bucketStart_eq]
  unfold bucketEnd bucketFirstDay bucketLastDay
  split_ifs
  · rw [endOfMonth_eq, dayOf_mul, lastDayOfMonth_first]
  · rw [endOfWeek_eq, dayOf_mul]; congr 2; omega
  · rw [endOfDay_eq, dayOf_mul]

theorem bucketFirstDay_le (bucket : String) (n : Int) : bucketFirstDay bucket n ≤ n := by
  unfold bucketFirstDay
  split_ifs
  · exact firstDayOfMonth_le n
  · omega
  · exact le_rfl

theorem le_bucketLastDay (bucket : String) (n : Int) : n ≤ bucketLastDay bucket n := by
  unfold bucketLastDay
  split_ifs
  · exact le_lastDayOfMonth n
  · omega
  · exact le_rfl

/-- The day after the last day of a bucket is the first day of its own bucket. -/
theorem bucketFirstDay_next (bucket : String) (n : Int) :
    bucketFirstDay bucket (bucketLastDay bucket n + 1) = bucketLastDay bucket n + 1 := by
  unfold bucketFirstDay bucketLastDay
  split_ifs
  · exact firstDayOfMonth_next n
  · omega
  · rfl

/-- The cursor after one iteration: the same time of day, one day after the
bucket's last day. -/
theorem addDays_bucketEnd (bucket : String) (cur : Int) :
    addDays (bucketEnd bucket (bucketStart bucket cur)) 1 =
      (bucketLastDay bucket (dayOf cur) + 1) * 86400000 + 86399999 := by
  rw [bucketEnd_bucketStart, addDays_eq]; ring

/-! ## The loop of `buildBuckets` -/

theorem buildBucketsLoop_succ (bucket : String) (end_ : Int) (fuel : Nat) (cur : Int) :
    buildBucketsLoop bucket end_ (fuel + 1) cur =
      if cur ≤ end_ then
        { start := bucketStart bucket cur, end_ := bucketEnd bucket (bucketStart bucket cur),
          total := 0 } ::
          buildBucketsLoop bucket end_ fuel (addDays (bucketEnd bucket (bucketStart bucket cur)) 1)
      else [] := rfl

/-- Every bucket of the loop is the aligned bucket of some cursor, with total 0. -/
theorem mem_buildBucketsLoop (bucket : String) (end_ : Int) (fuel : Nat) :
    ∀ (cur : Int) (b : Bucket), b ∈ buildBucketsLoop bucket end_ fuel cur →
      ∃ c : Int, b.start = bucketStart bucket c ∧
        b.end_ = bucketEnd bucket (bucketStart bucket c) ∧ b.total = 0 := by
  induction fuel with
  | zero => intro cur b h; simp [buildBucketsLoop] at h
  | succ k ih =>
    intro cur b h
    rw [buildBucketsLoop_succ] at h
    by_cases hc : cur ≤ end_
    · rw [if_pos hc] at h
      rcases List.mem_cons.mp h with h | h
      · exact ⟨cur, by rw [h], by rw [h], by rw [h]⟩
      · exact ih _ b h
    · rw [if_neg hc] at h
      exact absurd h (List.not_mem_nil b)

theorem mem_buildBuckets (start end_ : Int) (bucket : String) (b : Bucket)
    (h : b ∈ buildBuckets start end_ bucket) :
    ∃ n : Int, b.start = bucketFirstDay bucket n * 86400000 ∧
      b.end_ = bucketLastDay bucket n * 86400000 + 86399999 ∧ b.total = 0 := by
  obtain ⟨c, h1, h2, h3⟩ := mem_buildBucketsLoop bucket end_ _ _ b h
  exact ⟨dayOf c, by rw [h1, bucketStart_eq], by rw [h2, bucketEnd_bucketStart], h3⟩

/-- The first bucket of the loop, when there is one, starts at the aligned
start of the cursor. -/
theorem head_buildBucketsLoop (bucket : String) (end_ : Int) (fuel : Nat) (cur : Int)
    (b : Bucket) (h : b ∈ (buildBucketsLoop bucket end_ fuel cur).head?) :
    b.start = bucketStart bucket cur ∧ b.end_ = bucketEnd bucket (bucketStart bucket cur) := by
  cases fuel with
  | zero => simp [buildBucketsLoop] at h
  | succ k =>
    rw [buildBucketsLoop_succ] at h
    by_cases hc : cur ≤ end_
    · rw [if_pos hc] at h
      simp only [List.head?_cons, Option.mem_def, Option.some.injEq] at h
      subst h
      exact ⟨rfl, rfl⟩
    · rw [if_neg hc] at h
      simp at h

theorem bucket_start_le_end (bucket : String) (c : Int) :
    dayOf (bucketStart bucket c) ≤ dayOf (bucketEnd bucket (bucketStart bucket c)) := by
  rw [bucketEnd_bucketStart, bucketStart_eq, dayOf_mul, dayOf_mul_add]
  exact (bucketFirstDay_le bucket _).trans (le_bucketLastDay bucket _)

theorem buildBucketsLoop_chain (bucket : String) (end_ : Int) (fuel : Nat) :
    ∀ cur : Int, List.Chain' Adjacent (buildBucketsLoop bucket end_ fuel cur) := by
  induction fuel with
  | zero => intro cur; simp [buildBucketsLoop]
  | succ k ih =>
    intro cur
    rw [buildBucketsLoop_succ]
    by_cases hc : cur ≤ end_
    · rw [if_pos hc]
      refine (ih _).cons' ?_
      intro y hy
      obtain ⟨h1, h2⟩ := head_buildBucketsLoop bucket end_ k _ y hy
      refine ⟨bucket_start_le_end bucket cur, ?_, ?_⟩
      · show dayOf (bucketEnd bucket (bucketStart bucket cur)) + 1 = dayOf y.start
        rw [h1, addDays_bucketEnd, bucketEnd_bucketStart, dayOf_mul_add, bucketStart_eq,
          dayOf_mul_add, bucketFirstDay_next, dayOf_mul]
      · rw [h1, h2]; exact bucket_start_le_end bucket _
    · rw [if_neg hc]; exact List.chain'_nil

theorem format_congr {a b : Int} (h : dayOf a = dayOf b) : format a = format b := by
  unfold format getFullYear getMonth getDate
  rw [h]

theorem buildBuckets_nil_of_lt (start end_ : Int) (bucket : String)
    (h : end_ < bucketStart bucket start) : buildBuckets start end_ bucket = [] := by
  unfold buildBuckets
  simp only
  cases loopBound (bucketStart bucket start) end_ with
  | zero => rfl
  | succ k => rw [buildBucketsLoop_succ, if_neg (by omega)]

theorem buildBuckets_chain (start end_ : Int) (bucket : String) :
    List.Chain' Adjacent (buildBuckets start end_ bucket) :=
  buildBucketsLoop_chain bucket end_ _ _

/-- Buckets further apart in the plan are further apart in time. -/
theorem adjacent_pairwise (l : List Bucket) (h : List.Chain' Adjacent l) :
    List.Pairwise (fun a b => dayOf a.start ≤ dayOf a.end_ ∧ dayOf a.end_ < dayOf b.start ∧
      dayOf b.start ≤ dayOf b.end_) l := by
  haveI : IsTrans Bucket (fun a b => dayOf a.start ≤ dayOf a.end_ ∧
      dayOf a.end_ < dayOf b.start ∧ dayOf b.start ≤ dayOf b.end_) :=
    ⟨fun a b c hab hbc => ⟨hab.1, by omega, hbc.2.2⟩⟩
  refine List.chain'_iff_pairwise.mp (h.imp ?_)
  intro a b hab
  exact ⟨hab.1, by have := hab.2.1; omega, hab.2.2⟩

/-- C3 (amended). For an inverted range `start > end` of calendar dates the
plan is empty when the granularity is day, and for any granularity when the
aligned start of the bucket containing `start` is after `end`. -/
theorem buildBuckets_inverted_empty (start end_ : Int) (bucket : String)
    (hs : IsMidnight start) (h : end_ < start)
    (hal : (bucket ≠ "month" ∧ bucket ≠ "week") ∨ end_ < bucketStart bucket start) :
    buildBuckets start end_ bucket = [] := by
  apply buildBuckets_nil_of_lt
  rcases hal with ⟨h1, h2⟩ | h'
  · unfold bucketStart
    rw [if_neg h1, if_neg h2, startOfDay_eq]
    unfold IsMidnight timeWithinDay at hs
    unfold dayOf
    unfold msPerDay at *
    omega
  · exact h'

theorem buildBuckets_inverted_empty_witness :
    IsMidnight 1705276800000 ∧ (1704844800000 : Int) < 1705276800000 ∧
      buildBuckets 1705276800000 1704844800000 "day" = [] :=
  ⟨by decide, by decide,
    buildBuckets_inverted_empty 1705276800000 1704844800000 "day" (by decide) (by decide)
      (Or.inl ⟨by decide, by decide⟩)⟩

/-- C3 (counterexample). With start = 2024-01-15 and end = 2024-01-10 the
month plan is not empty: it holds the bucket of January 2024. -/
theorem buildBuckets_inverted_month_nonempty :
    IsMidnight 1705276800000 ∧ IsMidnight 1704844800000 ∧
      (1704844800000 : Int) < 1705276800000 ∧
      buildBuckets 1705276800000 1704844800000 "month" =
        [{ start := 1704067200000, end_ := 1706745599999, total := 0 }] := by
  decide

/-- C5. In the plan of `buildBuckets`, a bucket that comes later starts after
the earlier one ends, the bucket that comes next starts on the day after the
previous one ends, and no calendar day lies in two buckets. -/
theorem buildBuckets_contiguous (start end_ : Int) (bucket : String) (i j : Nat) (a b : Bucket)
    (hij : i < j) (ha : (buildBuckets start end_ bucket)[i]? = some a)
    (hb : (buildBuckets start end_ bucket)[j]? = some b) :
    (j = i + 1 → dayOf a.end_ + 1 = dayOf b.start) ∧ dayOf a.end_ < dayOf b.start ∧
      ∀ d : Int, dayOf a.start ≤ d → d ≤ dayOf a.end_ →
        ¬ (dayOf b.start ≤ d ∧ d ≤ dayOf b.end_) := by
  obtain ⟨hi, rfl⟩ := List.getElem?_eq_some.mp ha
  obtain ⟨hj, rfl⟩ := List.getElem?_eq_some.mp hb
  have hc := buildBuckets_chain start end_ bucket
  have hp := List.pairwise_iff_getElem.mp (adjacent_pairwise _ hc) i j hi hj hij
  refine ⟨?_, hp.2.1, fun d _ h2 h3 => by omega⟩
  intro hji
  subst hji
  exact (List.chain'_iff_get.mp hc i (by omega)).2.1

set_option maxRecDepth 100000 in
theorem buildBuckets_contiguous_witness :
    (0 : Nat) < 1 ∧
      (buildBuckets 1704067200000 1705190400000 "week")[0]? =
        some { start := 1704067200000, end_ := 1704671999999, total := 0 } ∧
      (buildBuckets 1704067200000 1705190400000 "week")[1]? =
        some { start := 1704672000000, end_ := 1705276799999, total := 0 } ∧
      dayOf 1704671999999 + 1 = dayOf 1704672000000 :=
  ⟨by decide, by rfl, by rfl,
    (buildBuckets_contiguous 1704067200000 1705190400000 "week" 0 1
      { start := 1704067200000, end_ := 1704671999999, total := 0 }
      { start := 1704672000000, end_ := 1705276799999, total := 0 }
      (by decide) (by rfl) (by rfl)).1 rfl⟩

/-- C8. Every bucket of a week plan starts on a Monday (at midnight) and ends
on the Sunday six days later, whether or not that Sunday is after `end`. -/
theorem buildBuckets_week_aligned (start end_ : Int) (b : Bucket)
    (hb : b ∈ buildBuckets start end_ "week") :
    getDay b.start = 1 ∧ getDay b.end_ = 0 ∧ dayOf b.end_ = dayOf b.start + 6 := by
  obtain ⟨n, h1, h2, -⟩ := mem_buildBuckets start end_ "week" b hb
  unfold bucketFirstDay at h1
  unfold bucketLastDay at h2
  rw [if_neg (by decide), if_pos rfl] at h1 h2
  unfold getDay
  rw [h1, h2, dayOf_mul, dayOf_mul_add]
  omega

theorem buildBuckets_week_aligned_witness :
    ({ start := 1706486400000, end_ := 1707091199999, total := 0 } : Bucket) ∈
        buildBuckets 1704067200000 1706745600000 "week" ∧
      getDay 1706486400000 = 1 ∧ getDay 1707091199999 = 0 ∧
      dayOf 1707091199999 = dayOf 1706486400000 + 6 :=
  ⟨by decide, buildBuckets_week_aligned 1704067200000 1706745600000
    { start := 1706486400000, end_ := 1707091199999, total := 0 } (by decide)⟩

/-- C9. Every bucket of a month plan starts on day 1 of a calendar month and
ends on the last day of the same month of the same year: its day of the
month is the length of that month and the next day is again a 1st. -/
theorem buildBuckets_month_aligned (start end_ : Int) (b : Bucket)
    (hb : b ∈ buildBuckets start end_ "month") :
    getDate b.start = 1 ∧ getFullYear b.end_ = getFullYear b.start ∧
      getMonth b.end_ = getMonth b.start ∧
      getDate b.end_ = daysInMonth (getFullYear b.start) (getMonth b.start) ∧
      getDate (addDays b.end_ 1) = 1 := by
  obtain ⟨n, h1, h2, -⟩ := mem_buildBuckets start end_ "month" b hb
  unfold bucketFirstDay at h1
  unfold bucketLastDay at h2
  rw [if_pos rfl] at h1 h2
  have hfl : firstDayOfMonth n ≤ lastDayOfMonth n :=
    (firstDayOfMonth_le n).trans (le_lastDayOfMonth n)
  obtain ⟨fy, fm, fd⟩ := civil_of_same_month n (firstDayOfMonth n) le_rfl hfl
  obtain ⟨ly, lm, ld⟩ := civil_of_same_month n (lastDayOfMonth n) hfl le_rfl
  unfold getDate getFullYear getMonth
  rw [dayOf_addDays, h1, h2, dayOf_mul, dayOf_mul_add, fy, fm, fd, ly, lm, ld,
    dateFromDay_next_month]
  refine ⟨by omega, rfl, rfl, ?_, rfl⟩
  unfold lastDayOfMonth
  omega

theorem buildBuckets_month_aligned_witness :
    ({ start := 1706745600000, end_ := 1709251199999, total := 0 } : Bucket) ∈
        buildBuckets 1704067200000 1707955200000 "month" ∧
      getDate 1706745600000 = 1 ∧ getFullYear 1709251199999 = getFullYear 1706745600000 ∧
      getMonth 1709251199999 = getMonth 1706745600000 ∧
      getDate 1709251199999 = daysInMonth (getFullYear 1706745600000) (getMonth 1706745600000) ∧
      getDate (addDays 1709251199999 1) = 1 :=
  ⟨by decide, buildBuckets_month_aligned 1704067200000 1707955200000
    { start := 1706745600000, end_ := 1709251199999, total := 0 } (by decide)⟩

theorem foldBucket_start (dayMap : List (String × Int)) (end_ : Int) (b : Bucket) :
    (foldBucket dayMap end_ b).start = b.start ∧ (foldBucket dayMap end_ b).end_ = b.end_ :=
  ⟨rfl, rfl⟩

/-- C10. Every bucket of a day plan starts and ends on the same calendar day,
and every record of the products response for a day plan has
`startDate = endDate`. -/
theorem buildBuckets_day_single (start end_ : Int) (rows : List ProductRow) (b : Bucket)
    (r : ProductRecord) (hb : b ∈ buildBuckets start end_ "day")
    (hr : r ∈ products start end_ "day" rows) :
    dayOf b.start = dayOf b.end_ ∧ format b.start = format b.end_ ∧
      r.startDate = r.endDate := by
  have key : ∀ c : Bucket, c ∈ buildBuckets start end_ "day" → dayOf c.start = dayOf c.end_ := by
    intro c hc
    obtain ⟨n, h1, h2, -⟩ := mem_buildBuckets start end_ "day" c hc
    unfold bucketFirstDay at h1
    unfold bucketLastDay at h2
    rw [if_neg (by decide), if_neg (by decide)] at h1 h2
    rw [h1, h2, dayOf_mul, dayOf_mul_add]
  refine ⟨key b hb, format_congr (key b hb), ?_⟩
  unfold products productBuckets at hr
  simp only [List.map_map, List.mem_map, Function.comp] at hr
  obtain ⟨c, hc, rfl⟩ := hr
  exact format_congr (key c hc)

theorem buildBuckets_day_single_witness :
    ({ start := 1704153600000, end_ := 1704239999999, total := 0 } : Bucket) ∈
        buildBuckets 1704067200000 1704326400000 "day" ∧
      ({ startDate := "2024-01-02", endDate := "2024-01-02", count := 7 } : ProductRecord) ∈
        products 1704067200000 1704326400000 "day" [("2024-01-02", 7)] ∧
      dayOf 1704153600000 = dayOf 1704239999999 ∧
      format 1704153600000 = format 1704239999999 ∧ "2024-01-02" = "2024-01-02" :=
  ⟨by decide, by decide,
    buildBuckets_day_single 1704067200000 1704326400000 [("2024-01-02", 7)]
      { start := 1704153600000, end_ := 1704239999999, total := 0 }
      { startDate := "2024-01-02", endDate := "2024-01-02", count := 7 } (by decide) (by decide)⟩

theorem format_eq_dayKey (t : Int) : format t = dayKey (dayOf t) := by
  unfold dayKey
  exact format_congr (dayOf_makeDate _ 0 (by decide) (by decide)).symm

theorem buildDayMap_eq {α : Type} (rows : List (String × α)) : buildDayMap rows = rows.reverse := by
  have key : ∀ (l acc : List (String × α)),
      l.foldl (fun dayMap r => (r.1, r.2) :: dayMap) acc = l.reverse ++ acc := by
    intro l
    induction l with
    | nil => intro acc; rfl
    | cons a t ih => intro acc; rw [List.foldl_cons, ih]; simp
  unfold buildDayMap
  rw [key, List.append_nil]

theorem lookup_cons_ne {α : Type} (k a1 : String) (a2 : α) (t : List (String × α))
    (h : k ≠ a1) : ((a1, a2) :: t).lookup k = t.lookup k := by
  rw [List.lookup_cons, beq_false_of_ne h]

theorem lookup_filter_key {α : Type} (k : String) (l : List (String × α)) :
    l.lookup k = (l.filter fun r => r.1 == k).lookup k := by
  induction l with
  | nil => rfl
  | cons a t ih =>
    obtain ⟨a1, a2⟩ := a
    by_cases h : a1 = k
    · subst h; simp
    · have h' : k ≠ a1 := fun e => h e.symm
      rw [lookup_cons_ne _ _ _ _ h', List.filter_cons_of_neg (by simpa using h)]
      exact ih

theorem lookup_buildDayMap {α : Type} (rows : List (String × α)) (d : Int) :
    (buildDayMap rows).lookup (dayKey d) = ((rowsFor rows d).reverse).lookup (dayKey d) := by
  rw [buildDayMap_eq, lookup_filter_key, List.filter_reverse]
  rfl

theorem lookup_reverse_of_nodup {α : Type} (k : String) (l : List (String × α))
    (h : (l.map Prod.fst).Nodup) : l.reverse.lookup k = l.lookup k := by
  induction l with
  | nil => rfl
  | cons a t ih =>
    obtain ⟨a1, a2⟩ := a
    rw [List.map_cons, List.nodup_cons] at h
    rw [List.reverse_cons, List.lookup_append, ih h.2]
    by_cases hk : k = a1
    · subst hk
      have : t.lookup k = none := by
        rw [List.lookup_eq_none_iff]
        intro p hp
        have hne : k ≠ p.1 := fun e => h.1 (List.mem_map.mpr ⟨p, hp, e.symm⟩)
        simpa using hne
      simp [this]
    · rw [lookup_cons_ne _ _ _ _ hk, lookup_cons_ne _ _ _ _ hk]
      simp

theorem addIfTruthy_eq (dayMap : List (String × Int)) (key : String) (total : Int) :
    addIfTruthy dayMap key total = total + (dayMap.lookup key).getD 0 := by
  unfold addIfTruthy
  cases dayMap.lookup key with
  | none => simp
  | some v =>
    by_cases hv : v = 0
    · simp [hv]
    · simp [hv]

theorem Icc_eq_insert (c hi : Int) (h : c ≤ hi) :
    Finset.Icc c hi = insert c (Finset.Icc (c + 1) hi) := by
  ext x
  simp only [Finset.mem_Icc, Finset.mem_insert]
  omega

theorem foldDaysLoop_succ (dayMap : List (String × Int)) (bEnd end_ : Int) (fuel : Nat)
    (cur total : Int) :
    foldDaysLoop dayMap bEnd end_ (fuel + 1) cur total =
      if cur ≤ bEnd ∧ cur ≤ end_ then
        foldDaysLoop dayMap bEnd end_ fuel (addDays cur 1)
          (addIfTruthy dayMap (format cur) total)
      else total := rfl

theorem midnight_le_iff (c x : Int) : c * 86400000 ≤ x ↔ c ≤ dayOf x := by
  unfold dayOf msPerDay; omega

/-- The inner loop of the products handler adds up the looked-up values of
the days from the cursor's day to the earlier of the bucket's end and `end`. -/
theorem foldDaysLoop_eq (dayMap : List (String × Int)) (bEnd end_ : Int) (fuel : Nat) :
    ∀ (c total : Int), (min (dayOf bEnd) (dayOf end_) - c + 1).toNat ≤ fuel →
      foldDaysLoop dayMap bEnd end_ fuel (c * 86400000) total =
        total + ∑ d in Finset.Icc c (min (dayOf bEnd) (dayOf end_)),
          (dayMap.lookup (dayKey d)).getD 0 := by
  induction fuel with
  | zero =>
    intro c total h
    rw [Finset.Icc_eq_empty (by omega)]
    simp [foldDaysLoop]
  | succ k ih =>
    intro c total h
    rw [foldDaysLoop_succ]
    by_cases hc : c ≤ min (dayOf bEnd) (dayOf end_)
    · rw [if_pos ⟨(midnight_le_iff c bEnd).mpr (by omega), (midnight_le_iff c end_).mpr (by omega)⟩,
        addDays_eq, show c * 86400000 + 1 * 86400000 = (c + 1) * 86400000 by ring,
        ih (c + 1) _ (by omega), addIfTruthy_eq, format_eq_dayKey, dayOf_mul,
        Icc_eq_insert c _ hc, Finset.sum_insert (by simp)]
      ring
    · rw [if_neg (by
        rintro ⟨h1, h2⟩
        rw [midnight_le_iff] at h1 h2
        omega), Finset.Icc_eq_empty (by omega)]
      simp

theorem dayOf_min (a b : Int) : dayOf (min a b) = min (dayOf a) (dayOf b) := by
  unfold dayOf msPerDay; omega

theorem foldBucket_total (dayMap : List (String × Int)) (end_ : Int) (b : Bucket) :
    (foldBucket dayMap end_ b).total =
      b.total + ∑ d in Finset.Icc (dayOf b.start) (min (dayOf b.end_) (dayOf end_)),
        (dayMap.lookup (dayKey d)).getD 0 := by
  unfold foldBucket
  simp only
  rw [startOfDay_eq]
  apply foldDaysLoop_eq
  unfold loopBound
  rw [← dayOf_min]
  unfold dayOf msPerDay
  omega

/-- With wall-clock time values and exact integer totals, for rows with
pairwise distinct day keys, the total of every bucket of the plan after the
products folding loop is the sum, over the days from the bucket's start to
the earlier of the bucket's end and `end`, of the value of the row for that
day, a day without a row counting 0. -/
theorem foldBucket_eq_referenceTotal (start end_ : Int) (bucket : String)
    (rows : List ProductRow) (b : Bucket) (hnd : (rows.map Prod.fst).Nodup)
    (hb : b ∈ buildBuckets start end_ bucket) :
    (foldBucket (buildDayMap rows) end_ b).total =
      referenceTotal rows (dayOf b.start) (min (dayOf b.end_) (dayOf end_)) := by
  obtain ⟨n, -, -, h0⟩ := mem_buildBuckets start end_ bucket b hb
  rw [foldBucket_total, h0, zero_add]
  unfold referenceTotal rowValue
  refine Finset.sum_congr rfl fun d _ => ?_
  rw [buildDayMap_eq, lookup_reverse_of_nodup _ _ hnd]

theorem foldBucket_eq_referenceTotal_witness :
    ([("2024-01-01", 3), ("2024-01-08", 4)].map Prod.fst).Nodup ∧
      ({ start := 1704672000000, end_ := 1705276799999, total := 0 } : Bucket) ∈
        buildBuckets 1704067200000 1705190400000 "week" ∧
      (foldBucket (buildDayMap [("2024-01-01", 3), ("2024-01-08", 4)]) 1705190400000
          { start := 1704672000000, end_ := 1705276799999, total := 0 }).total =
        referenceTotal [("2024-01-01", 3), ("2024-01-08", 4)] (dayOf 1704672000000)
          (min (dayOf 1705276799999) (dayOf 1705190400000)) :=
  ⟨by decide, by decide,
    foldBucket_eq_referenceTotal 1704067200000 1705190400000 "week"
      [("2024-01-01", 3), ("2024-01-08", 4)]
      { start := 1704672000000, end_ := 1705276799999, total := 0 } (by decide) (by decide)⟩

/-! ## Clipping -/

theorem firstDayOfMonth_idem (n : Int) :
    firstDayOfMonth (firstDayOfMonth n) = firstDayOfMonth n := by
  obtain ⟨-, -, hd⟩ := civil_of_same_month n (firstDayOfMonth n) le_rfl
    ((firstDayOfMonth_le n).trans (le_lastDayOfMonth n))
  have e : firstDayOfMonth (firstDayOfMonth n) =
      firstDayOfMonth n - (dateFromDay (firstDayOfMonth n) - 1) := rfl
  rw [e, hd]; omega

theorem bucketFirstDay_idem (bucket : String) (n : Int) :
    bucketFirstDay bucket (bucketFirstDay bucket n) = bucketFirstDay bucket n := by
  unfold bucketFirstDay
  split_ifs
  · exact firstDayOfMonth_idem n
  · omega
  · rfl

/-- No bucket of the loop starts before the bucket of the cursor. -/
theorem buildBucketsLoop_start_ge (bucket : String) (end_ : Int) (fuel : Nat) :
    ∀ (cur : Int) (b : Bucket), b ∈ buildBucketsLoop bucket end_ fuel cur →
      bucketFirstDay bucket (dayOf cur) ≤ dayOf b.start := by
  induction fuel with
  | zero => intro cur b h; simp [buildBucketsLoop] at h
  | succ k ih =>
    intro cur b h
    rw [buildBucketsLoop_succ] at h
    by_cases hc : cur ≤ end_
    · rw [if_pos hc] at h
      rcases List.mem_cons.mp h with h | h
      · rw [h]
        show bucketFirstDay bucket (dayOf cur) ≤ dayOf (bucketStart bucket cur)
        rw [bucketStart_eq, dayOf_mul]
      · have := ih _ b h
        rw [addDays_bucketEnd, dayOf_mul_add, bucketFirstDay_next] at this
        have h1 := bucketFirstDay_le bucket (dayOf cur)
        have h2 := le_bucketLastDay bucket (dayOf cur)
        omega
    · rw [if_neg hc] at h
      exact absurd h (List.not_mem_nil b)

theorem buildBuckets_start_ge (start end_ : Int) (bucket : String) (b : Bucket)
    (h : b ∈ buildBuckets start end_ bucket) :
    dayOf (bucketStart bucket start) ≤ dayOf b.start := by
  have := buildBucketsLoop_start_ge bucket end_ _ _ b h
  rwa [bucketStart_eq, dayOf_mul, bucketFirstDay_idem, ← dayOf_mul (bucketFirstDay bucket _),
    ← bucketStart_eq] at this

theorem le_dayOf_of_le {a b : Int} (h : a ≤ b) : dayOf a ≤ dayOf b := by
  unfold dayOf msPerDay; omega

theorem foldDaysLoop_congr (m1 m2 : List (String × Int)) (bEnd end_ lo : Int)
    (h : ∀ d : Int, lo ≤ d → d ≤ dayOf end_ → m1.lookup (dayKey d) = m2.lookup (dayKey d))
    (fuel : Nat) :
    ∀ (cur total : Int), lo ≤ dayOf cur →
      foldDaysLoop m1 bEnd end_ fuel cur total = foldDaysLoop m2 bEnd end_ fuel cur total := by
  induction fuel with
  | zero => intro cur total _; rfl
  | succ k ih =>
    intro cur total hlo
    rw [foldDaysLoop_succ, foldDaysLoop_succ]
    by_cases hc : cur ≤ bEnd ∧ cur ≤ end_
    · rw [if_pos hc, if_pos hc, addIfTruthy_eq, addIfTruthy_eq, format_eq_dayKey,
        h _ hlo (le_dayOf_of_le hc.2)]
      exact ih _ _ (by rw [dayOf_addDays]; omega)
    · rw [if_neg hc, if_neg hc]

theorem foldVisitorDaysLoop_succ (dayMap : List (String × VisitorDay)) (bEnd end_ : Int)
    (fuel : Nat) (cur : Int) (acc : Int × Int) :
    foldVisitorDaysLoop dayMap bEnd end_ (fuel + 1) cur acc =
      if cur ≤ bEnd ∧ cur ≤ end_ then
        foldVisitorDaysLoop dayMap bEnd end_ fuel (addDays cur 1)
          (match dayMap.lookup (format cur) with
           | some v => (acc.1 + v.hits, acc.2 + v.unique)
           | none => acc)
      else acc := rfl

theorem foldVisitorDaysLoop_congr (m1 m2 : List (String × VisitorDay)) (bEnd end_ lo : Int)
    (h : ∀ d : Int, lo ≤ d → d ≤ dayOf end_ → m1.lookup (dayKey d) = m2.lookup (dayKey d))
    (fuel : Nat) :
    ∀ (cur : Int) (acc : Int × Int), lo ≤ dayOf cur →
      foldVisitorDaysLoop m1 bEnd end_ fuel cur acc =
        foldVisitorDaysLoop m2 bEnd end_ fuel cur acc := by
  induction fuel with
  | zero => intro cur acc _; rfl
  | succ k ih =>
    intro cur acc hlo
    rw [foldVisitorDaysLoop_succ, foldVisitorDaysLoop_succ]
    by_cases hc : cur ≤ bEnd ∧ cur ≤ end_
    · rw [if_pos hc, if_pos hc, format_eq_dayKey, h _ hlo (le_dayOf_of_le hc.2)]
      exact ih _ _ (by rw [dayOf_addDays]; omega)
    · rw [if_neg hc, if_neg hc]

theorem lookup_congr_of_rowsFor {α : Type} (rows1 rows2 : List (String × α)) (d : Int)
    (h : rowsFor rows1 d = rowsFor rows2 d) :
    (buildDayMap rows1).lookup (dayKey d) = (buildDayMap rows2).lookup (dayKey d) := by
  rw [lookup_buildDayMap, lookup_buildDayMap, h]

/-- C7. Two row lists that hold the same rows for every day from the first day
of the first bucket up to the calendar day of `end` give the same buckets,
totals included, in the products handler and in the visitors handler: rows
of later days contribute to no bucket, also when a week or month bucket ends
after `end`. -/
theorem fold_clipped (start end_ : Int) (bucket : String) (rows1 rows2 : List ProductRow)
    (vrows1 vrows2 : List VisitorRow)
    (h : ∀ d : Int, dayOf (bucketStart bucket start) ≤ d → d ≤ dayOf end_ →
      rowsFor rows1 d = rowsFor rows2 d)
    (hv : ∀ d : Int, dayOf (bucketStart bucket start) ≤ d → d ≤ dayOf end_ →
      rowsFor vrows1 d = rowsFor vrows2 d) :
    products start end_ bucket rows1 = products start end_ bucket rows2 ∧
      visitors start end_ bucket vrows1 = visitors start end_ bucket vrows2 := by
  constructor
  · unfold products productBuckets
    simp only
    congr 1
    refine List.map_congr_left fun b hb => ?_
    unfold foldBucket
    simp only
    rw [foldDaysLoop_congr _ _ _ _ _ (fun d h1 h2 => lookup_congr_of_rowsFor _ _ d (h d h1 h2))]
    rw [startOfDay_eq, dayOf_mul]
    exact buildBuckets_start_ge start end_ bucket b hb
  · unfold visitors visitorBuckets
    simp only
    congr 1
    refine List.map_congr_left fun b hb => ?_
    unfold foldVisitorBucket
    simp only
    rw [foldVisitorDaysLoop_congr _ _ _ _ _
      (fun d h1 h2 => lookup_congr_of_rowsFor _ _ d (hv d h1 h2))]
    rw [startOfDay_eq, dayOf_mul]
    exact buildBuckets_start_ge start end_ bucket b hb

theorem fold_clipped_witness :
    (∀ d : Int, dayOf (bucketStart "week" 1704067200000) ≤ d → d ≤ dayOf 1705449600000 →
        rowsFor [("2024-01-01", (3 : Int)), ("2024-01-08", 4)] d =
          rowsFor [("2024-01-01", (3 : Int)), ("2024-01-08", 4), ("2024-01-20", 9)] d) ∧
      (∀ d : Int, dayOf (bucketStart "week" 1704067200000) ≤ d → d ≤ dayOf 1705449600000 →
        rowsFor [("2024-01-08", ({ hits := 4, unique := 2 } : VisitorDay))] d =
          rowsFor [("2024-01-08", ({ hits := 4, unique := 2 } : VisitorDay)),
            ("2024-01-20", { hits := 9, unique := 1 })] d) ∧
      products 1704067200000 1705449600000 "week" [("2024-01-01", 3), ("2024-01-08", 4)] =
        products 1704067200000 1705449600000 "week"
          [("2024-01-01", 3), ("2024-01-08", 4), ("2024-01-20", 9)] ∧
      visitors 1704067200000 1705449600000 "week" [("2024-01-08", { hits := 4, unique := 2 })] =
        visitors 1704067200000 1705449600000 "week"
          [("2024-01-08", { hits := 4, unique := 2 }), ("2024-01-20", { hits := 9, unique := 1 })] :=
  have e1 : dayOf (bucketStart "week" 1704067200000) = 19723 := by decide
  have e2 : dayOf 1705449600000 = 19739 := by decide
  have h1 : ∀ d : Int, dayOf (bucketStart "week" 1704067200000) ≤ d → d ≤ dayOf 1705449600000 →
      rowsFor [("2024-01-01", (3 : Int)), ("2024-01-08", 4)] d =
        rowsFor [("2024-01-01", (3 : Int)), ("2024-01-08", 4), ("2024-01-20", 9)] d := by
    intro d a b
    rw [e1] at a
    rw [e2] at b
    interval_cases d <;> decide
  have h2 : ∀ d : Int, dayOf (bucketStart "week" 1704067200000) ≤ d → d ≤ dayOf 1705449600000 →
      rowsFor [("2024-01-08", ({ hits := 4, unique := 2 } : VisitorDay))] d =
        rowsFor [("2024-01-08", ({ hits := 4, unique := 2 } : VisitorDay)),
          ("2024-01-20", { hits := 9, unique := 1 })] d := by
    intro d a b
    rw [e1] at a
    rw [e2] at b
    interval_cases d <;> decide
  ⟨h1, h2, fold_clipped 1704067200000 1705449600000 "week" _ _ _ _ h1 h2⟩

/-- C1 (failing input). For start = 2024-01-01 and end = 2024-01-02, both at
midnight, the day plan holds the bucket of 2024-01-01 only: no bucket
contains the calendar day of `end`. -/
theorem buildBuckets_misses_end_day :
    IsMidnight 1704067200000 ∧ IsMidnight 1704153600000 ∧
      (1704067200000 : Int) ≤ 1704153600000 ∧
      buildBuckets 1704067200000 1704153600000 "day" =
        [{ start := 1704067200000, end_ := 1704153599999, total := 0 }] ∧
      ¬ ∃ b ∈ buildBuckets 1704067200000 1704153600000 "day",
        dayOf b.start ≤ dayOf 1704153600000 ∧ dayOf 1704153600000 ≤ dayOf b.end_ := by
  decide

/-- C2 (failing input). For start = 2024-01-01 and end = 2024-01-10, both at
midnight, the range has 10 calendar days and the day plan has 9 buckets. -/
theorem buildBuckets_day_count_short :
    IsMidnight 1704067200000 ∧ IsMidnight 1704844800000 ∧
      dayOf 1704844800000 - dayOf 1704067200000 + 1 = 10 ∧
      (buildBuckets 1704067200000 1704844800000 "day").length = 9 := by
  decide

/-- C4 (failing input). For start = 2024-01-01, end = 2024-01-02 and the single
row (2024-01-02, 5), a day inside the range, the products response is one
record with count 0: the row's value is folded into no bucket. -/
theorem products_drops_end_day_row :
    dayKey (dayOf 1704153600000) = "2024-01-02" ∧
      products 1704067200000 1704153600000 "day" [("2024-01-02", 5)] =
        [{ startDate := "2024-01-01", endDate := "2024-01-01", count := 0 }] ∧
      ((products 1704067200000 1704153600000 "day" [("2024-01-02", 5)]).map
        fun r => r.count).sum = 0 := by
  decide

/-- Fuel beyond `loopBound` does not change the result of the loop of
`buildBuckets`: the loop ends because the cursor passes `end`. -/
theorem buildBucketsLoop_fuel (bucket : String) (end_ : Int) (f1 : Nat) :
    ∀ (f2 : Nat) (cur : Int), loopBound cur end_ ≤ f1 → loopBound cur end_ ≤ f2 →
      buildBucketsLoop bucket end_ f1 cur = buildBucketsLoop bucket end_ f2 cur := by
  have stop : ∀ (f : Nat) (cur : Int), loopBound cur end_ = 0 →
      buildBucketsLoop bucket end_ f cur = [] := by
    intro f cur h
    cases f with
    | zero => rfl
    | succ k =>
      rw [buildBucketsLoop_succ, if_neg]
      unfold loopBound msPerDay at h
      omega
  have next : ∀ cur : Int, cur ≤ end_ →
      loopBound (addDays (bucketEnd bucket (bucketStart bucket cur)) 1) end_ + 1 ≤
        loopBound cur end_ := by
    intro cur hc
    rw [addDays_bucketEnd]
    have h2 := le_bucketLastDay bucket (dayOf cur)
    generalize bucketLastDay bucket (dayOf cur) = last at h2 ⊢
    unfold loopBound
    unfold dayOf at h2
    unfold msPerDay at *
    omega
  induction f1 with
  | zero =>
    intro f2 cur h1 _
    rw [stop 0 cur (by omega), stop f2 cur (by omega)]
  | succ k ih =>
    intro f2 cur h1 h2
    cases f2 with
    | zero => rw [stop 0 cur (by omega), stop (k + 1) cur (by omega)]
    | succ m =>
      rw [buildBucketsLoop_succ, buildBucketsLoop_succ]
      by_cases hc : cur ≤ end_
      · rw [if_pos hc, if_pos hc, ih m _ (by have := next cur hc; omega)
          (by have := next cur hc; omega)]
      · rw [if_neg hc, if_neg hc]

/-! ## Row order -/

theorem lookup_eq_some_iff_mem {α : Type} (k : String) (v : α) (l : List (String × α))
    (h : (l.map Prod.fst).Nodup) : l.lookup k = some v ↔ (k, v) ∈ l := by
  induction l with
  | nil => simp
  | cons a t ih =>
    obtain ⟨a1, a2⟩ := a
    rw [List.map_cons, List.nodup_cons] at h
    by_cases hk : k = a1
    · subst hk
      rw [List.lookup_cons_self, List.mem_cons]
      constructor
      · intro e
        left
        rw [Option.some.inj e]
      · rintro (e | e)
        · rw [(Prod.mk.inj e).2]
        · exact absurd (List.mem_map.mpr ⟨(k, v), e, rfl⟩) h.1
    · rw [lookup_cons_ne _ _ _ _ hk, ih h.2, List.mem_cons]
      constructor
      · exact Or.inr
      · rintro (e | e)
        · exact absurd (Prod.mk.inj e).1 hk
        · exact e

theorem lookup_perm_of_nodup {α : Type} (k : String) (l1 l2 : List (String × α))
    (hp : l1.Perm l2) (h : (l1.map Prod.fst).Nodup) : l1.lookup k = l2.lookup k := by
  have h2 : (l2.map Prod.fst).Nodup := (hp.map Prod.fst).nodup_iff.mp h
  apply Option.ext
  intro v
  rw [Option.mem_def, Option.mem_def, lookup_eq_some_iff_mem k v l1 h,
    lookup_eq_some_iff_mem k v l2 h2]
  exact hp.mem_iff

theorem lookup_buildDayMap_perm {α : Type} (k : String) (rows1 rows2 : List (String × α))
    (hp : rows1.Perm rows2) (h : (rows1.map Prod.fst).Nodup) :
    (buildDayMap rows1).lookup k = (buildDayMap rows2).lookup k := by
  have h2 : (rows2.map Prod.fst).Nodup := (hp.map Prod.fst).nodup_iff.mp h
  rw [buildDayMap_eq, buildDayMap_eq, lookup_reverse_of_nodup _ _ h,
    lookup_reverse_of_nodup _ _ h2]
  exact lookup_perm_of_nodup k rows1 rows2 hp h

/-- Two `dayMap`s with the same entry for every key give the same bucket. -/
theorem foldBucket_congr (m1 m2 : List (String × Int)) (end_ : Int) (b : Bucket)
    (h : ∀ k : String, m1.lookup k = m2.lookup k) : foldBucket m1 end_ b = foldBucket m2 end_ b := by
  unfold foldBucket
  simp only
  rw [foldDaysLoop_congr m1 m2 b.end_ end_ (dayOf (startOfDay b.start)) (fun d _ _ => h _) _ _ _
    le_rfl]

/-- C11. For rows with pairwise distinct day keys, folding a permutation of
the rows gives every bucket of any plan, for any clip date `end`, the same
total as folding the rows in their original order; the products response is
the same as well. -/
theorem fold_perm (rows1 rows2 : List ProductRow) (start end_ : Int) (bucket : String)
    (buckets : List Bucket) (hp : rows1.Perm rows2) (hnd : (rows1.map Prod.fst).Nodup) :
    buckets.map (foldBucket (buildDayMap rows1) end_) =
        buckets.map (foldBucket (buildDayMap rows2) end_) ∧
      products start end_ bucket rows1 = products start end_ bucket rows2 := by
  have key : ∀ b : Bucket, foldBucket (buildDayMap rows1) end_ b =
      foldBucket (buildDayMap rows2) end_ b :=
    fun b => foldBucket_congr _ _ end_ b fun k => lookup_buildDayMap_perm k rows1 rows2 hp hnd
  refine ⟨List.map_congr_left fun b _ => key b, ?_⟩
  unfold products productBuckets
  simp only
  congr 1
  exact List.map_congr_left fun b _ => key b

theorem fold_perm_witness :
    ([("2024-01-01", 3), ("2024-01-08", 4)] : List ProductRow).Perm
        [("2024-01-08", 4), ("2024-01-01", 3)] ∧
      (([("2024-01-01", 3), ("2024-01-08", 4)] : List ProductRow).map Prod.fst).Nodup ∧
      [({ start := 1704672000000, end_ := 1705276799999, total := 0 } : Bucket)].map
          (foldBucket (buildDayMap [("2024-01-01", 3), ("2024-01-08", 4)]) 1705190400000) =
        [({ start := 1704672000000, end_ := 1705276799999, total := 0 } : Bucket)].map
          (foldBucket (buildDayMap [("2024-01-08", 4), ("2024-01-01", 3)]) 1705190400000) ∧
      products 1704067200000 1705190400000 "week" [("2024-01-01", 3), ("2024-01-08", 4)] =
        products 1704067200000 1705190400000 "week" [("2024-01-08", 4), ("2024-01-01", 3)] :=
  ⟨List.Perm.swap _ _ _, by decide,
    fold_perm [("2024-01-01", 3), ("2024-01-08", 4)] [("2024-01-08", 4), ("2024-01-01", 3)]
      1704067200000 1705190400000 "week"
      [{ start := 1704672000000, end_ := 1705276799999, total := 0 }]
      (List.Perm.swap _ _ _) (by decide)⟩

/-! ## Visitors and products -/

theorem lookup_map_snd {α β : Type} (f : α → β) (k : String) (l : List (String × α)) :
    (l.map fun p => (p.1, f p.2)).lookup k = (l.lookup k).map f := by
  induction l with
  | nil => rfl
  | cons a t ih =>
    obtain ⟨a1, a2⟩ := a
    by_cases hk : k = a1
    · subst hk
      rw [List.map_cons, List.lookup_cons_self, List.lookup_cons_self]
      rfl
    · rw [List.map_cons, lookup_cons_ne _ _ _ _ hk, lookup_cons_ne _ _ _ _ hk, ih]

theorem buildDayMap_map {α β : Type} (f : α → β) (rows : List (String × α)) :
    buildDayMap (rows.map fun p => (p.1, f p.2)) = (buildDayMap rows).map fun p => (p.1, f p.2) := by
  rw [buildDayMap_eq, buildDayMap_eq, List.map_reverse]

/-- The visitors loop is the products loop run on the hits and on the unique
counts separately. -/
theorem foldVisitorDaysLoop_eq (dayMap : List (String × VisitorDay)) (bEnd end_ : Int)
    (fuel : Nat) :
    ∀ (cur : Int) (acc : Int × Int),
      foldVisitorDaysLoop dayMap bEnd end_ fuel cur acc =
        (foldDaysLoop (dayMap.map fun p => (p.1, p.2.hits)) bEnd end_ fuel cur acc.1,
          foldDaysLoop (dayMap.map fun p => (p.1, p.2.unique)) bEnd end_ fuel cur acc.2) := by
  induction fuel with
  | zero => intro cur acc; rfl
  | succ k ih =>
    intro cur acc
    rw [foldVisitorDaysLoop_succ, foldDaysLoop_succ, foldDaysLoop_succ]
    by_cases hc : cur ≤ bEnd ∧ cur ≤ end_
    · rw [if_pos hc, if_pos hc, if_pos hc, ih, addIfTruthy_eq, addIfTruthy_eq,
        lookup_map_snd (fun v : VisitorDay => v.hits),
        lookup_map_snd (fun v : VisitorDay => v.unique)]
      cases dayMap.lookup (format cur) with
      | none => simp
      | some v => simp
    · rw [if_neg hc, if_neg hc, if_neg hc]

theorem foldVisitorBucket_eq (rows : List VisitorRow) (end_ : Int) (b : Bucket)
    (h0 : b.total = 0) :
    (foldVisitorBucket (buildDayMap rows) end_ b).hits =
        (foldBucket (buildDayMap (hitsRows rows)) end_ b).total ∧
      (foldVisitorBucket (buildDayMap rows) end_ b).unique =
        (foldBucket (buildDayMap (uniqueRows rows)) end_ b).total := by
  unfold foldVisitorBucket foldBucket hitsRows uniqueRows
  simp only
  rw [foldVisitorDaysLoop_eq, buildDayMap_map (fun v : VisitorDay => v.hits),
    buildDayMap_map (fun v : VisitorDay => v.unique), h0]
  exact ⟨rfl, rfl⟩

/-- C12. The visitors response has the bucket dates of the products response,
its `hits` are the `count`s that the products handler computes from the rows
(day, hits), and its `uniqueVisitors` are the `count`s that the products
handler computes from the rows (day, uniqueVisitors). -/
theorem visitors_eq_products (start end_ : Int) (bucket : String) (rows : List VisitorRow) :
    (visitors start end_ bucket rows).map (fun r => (r.startDate, r.endDate, r.hits)) =
        (products start end_ bucket (hitsRows rows)).map
          (fun r => (r.startDate, r.endDate, r.count)) ∧
      (visitors start end_ bucket rows).map (fun r => (r.startDate, r.endDate, r.uniqueVisitors)) =
        (products start end_ bucket (uniqueRows rows)).map
          (fun r => (r.startDate, r.endDate, r.count)) := by
  unfold visitors visitorBuckets products productBuckets
  simp only [List.map_map]
  constructor
  · refine List.map_congr_left fun b hb => ?_
    obtain ⟨n, -, -, h0⟩ := mem_buildBuckets start end_ bucket b hb
    simp only [Function.comp]
    rw [(foldVisitorBucket_eq rows end_ b h0).1]
    rfl
  · refine List.map_congr_left fun b hb => ?_
    obtain ⟨n, -, -, h0⟩ := mem_buildBuckets start end_ bucket b hb
    simp only [Function.comp]
    rw [(foldVisitorBucket_eq rows end_ b h0).2]
    rfl

/-! ## No rows -/

theorem foldDaysLoop_nil (bEnd end_ : Int) (fuel : Nat) :
    ∀ (cur total : Int), foldDaysLoop [] bEnd end_ fuel cur total = total := by
  induction fuel with
  | zero => intro cur total; rfl
  | succ k ih =>
    intro cur total
    rw [foldDaysLoop_succ]
    by_cases hc : cur ≤ bEnd ∧ cur ≤ end_
    · rw [if_pos hc, ih]; rfl
    · rw [if_neg hc]

theorem foldVisitorDaysLoop_nil (bEnd end_ : Int) (fuel : Nat) :
    ∀ (cur : Int) (acc : Int × Int), foldVisitorDaysLoop [] bEnd end_ fuel cur acc = acc := by
  induction fuel with
  | zero => intro cur acc; rfl
  | succ k ih =>
    intro cur acc
    rw [foldVisitorDaysLoop_succ]
    by_cases hc : cur ≤ bEnd ∧ cur ≤ end_
    · rw [if_pos hc, ih]; rfl
    · rw [if_neg hc]

/-- C15. With no rows the products response is the whole plan with count 0 in
every bucket and the visitors response is the whole plan with hits 0 and
uniqueVisitors 0 in every bucket; the bucket dates of both responses are the
same for every row list. -/
theorem empty_rows_zero (start end_ : Int) (bucket : String) (rows : List ProductRow)
    (vrows : List VisitorRow) :
    products start end_ bucket [] =
        (buildBuckets start end_ bucket).map
          (fun b => { startDate := format b.start, endDate := format b.end_, count := 0 }) ∧
      visitors start end_ bucket [] =
        (buildBuckets start end_ bucket).map
          (fun b => { startDate := format b.start, endDate := format b.end_, hits := 0,
                      uniqueVisitors := 0 }) ∧
      (products start end_ bucket rows).map (fun r => (r.startDate, r.endDate)) =
        (products start end_ bucket []).map (fun r => (r.startDate, r.endDate)) ∧
      (visitors start end_ bucket vrows).map (fun r => (r.startDate, r.endDate)) =
        (visitors start end_ bucket []).map (fun r => (r.startDate, r.endDate)) := by
  refine ⟨?_, ?_, ?_, ?_⟩
  · unfold products productBuckets
    simp only [List.map_map]
    refine List.map_congr_left fun b hb => ?_
    obtain ⟨n, -, -, h0⟩ := mem_buildBuckets start end_ bucket b hb
    simp only [Function.comp, foldBucket, buildDayMap, List.foldl_nil, foldDaysLoop_nil, h0]
  · unfold visitors visitorBuckets
    simp only [List.map_map]
    refine List.map_congr_left fun b _ => ?_
    simp only [Function.comp, foldVisitorBucket, buildDayMap, List.foldl_nil,
      foldVisitorDaysLoop_nil]
  · unfold products productBuckets
    simp only [List.map_map]
    exact List.map_congr_left fun b _ => rfl
  · unfold visitors visitorBuckets
    simp only [List.map_map]
    exact List.map_congr_left fun b _ => rfl

/-! ## The examples of the spec -/

/-- C13 (failing input). For start = 2024-01-01, end = 2024-01-10 (midnights),
granularity day and the rows (2024-01-01, 5), (2024-01-03, 2) the products
response has 9 records, 01-01 .. 01-09: the record of 2024-01-10 is missing. -/
theorem products_day_example_short :
    IsMidnight 1704067200000 ∧ format 1704067200000 = "2024-01-01" ∧
      IsMidnight 1704844800000 ∧ format 1704844800000 = "2024-01-10" ∧
      products 1704067200000 1704844800000 "day" [("2024-01-01", 5), ("2024-01-03", 2)] =
        [{ startDate := "2024-01-01", endDate := "2024-01-01", count := 5 },
         { startDate := "2024-01-02", endDate := "2024-01-02", count := 0 },
         { startDate := "2024-01-03", endDate := "2024-01-03", count := 2 },
         { startDate := "2024-01-04", endDate := "2024-01-04", count := 0 },
         { startDate := "2024-01-05", endDate := "2024-01-05", count := 0 },
         { startDate := "2024-01-06", endDate := "2024-01-06", count := 0 },
         { startDate := "2024-01-07", endDate := "2024-01-07", count := 0 },
         { startDate := "2024-01-08", endDate := "2024-01-08", count := 0 },
         { startDate := "2024-01-09", endDate := "2024-01-09", count := 0 }] := by
  decide

/-- C14. For start = 2024-01-01, end = 2024-01-14 (midnights), granularity week
and the rows (2024-01-01, 3), (2024-01-08, 4) the products response is the two
records (2024-01-01..2024-01-07, 3) and (2024-01-08..2024-01-14, 4). -/
theorem products_week_example :
    IsMidnight 1704067200000 ∧ format 1704067200000 = "2024-01-01" ∧
      IsMidnight 1705190400000 ∧ format 1705190400000 = "2024-01-14" ∧
      products 1704067200000 1705190400000 "week" [("2024-01-01", 3), ("2024-01-08", 4)] =
        [{ startDate := "2024-01-01", endDate := "2024-01-07", count := 3 },
         { startDate := "2024-01-08", endDate := "2024-01-14", count := 4 }] := by
  decide

/-! ## Termination -/

/-- One iteration shortens the remaining fuel bound by at least one. -/
theorem loopBound_next (bucket : String) (end_ cur : Int) (hc : cur ≤ end_) :
    loopBound (addDays (bucketEnd bucket (bucketStart bucket cur)) 1) end_ + 1 ≤
      loopBound cur end_ := by
  rw [addDays_bucketEnd]
  have h2 := le_bucketLastDay bucket (dayOf cur)
  generalize bucketLastDay bucket (dayOf cur) = last at h2 ⊢
  unfold loopBound
  unfold dayOf at h2
  unfold msPerDay at *
  omega

theorem length_buildBucketsLoop (bucket : String) (end_ : Int) (fuel : Nat) :
    ∀ cur : Int, (buildBucketsLoop bucket end_ fuel cur).length ≤ loopBound cur end_ := by
  induction fuel with
  | zero => intro cur; exact Nat.zero_le _
  | succ k ih =>
    intro cur
    rw [buildBucketsLoop_succ]
    by_cases hc : cur ≤ end_
    · rw [if_pos hc, List.length_cons]
      have := ih (addDays (bucketEnd bucket (bucketStart bucket cur)) 1)
      have := loopBound_next bucket end_ cur hc
      omega
    · rw [if_neg hc]; exact Nat.zero_le _

/-- C16. Every iteration of the loop of `buildBuckets` moves the cursor to a
later calendar day, so the loop terminates: any fuel from `loopBound` on gives
the plan of `buildBuckets`, and the plan has at most
`daysBetween(alignedStart, end) + 1` buckets (none when that is negative). -/
theorem buildBuckets_terminates (start end_ cur : Int) (bucket : String) (fuel : Nat)
    (hf : loopBound (bucketStart bucket start) end_ ≤ fuel) :
    dayOf cur + 1 ≤ dayOf (addDays (bucketEnd bucket (bucketStart bucket cur)) 1) ∧
      buildBucketsLoop bucket end_ fuel (bucketStart bucket start) =
        buildBuckets start end_ bucket ∧
      ((buildBuckets start end_ bucket).length : Int) ≤
        max 0 (dayOf end_ - dayOf (bucketStart bucket start) + 1) := by
  refine ⟨?_, buildBucketsLoop_fuel bucket end_ fuel _ _ hf le_rfl, ?_⟩
  · rw [addDays_bucketEnd, dayOf_mul_add]
    have := le_bucketLastDay bucket (dayOf cur)
    omega
  · have h := length_buildBucketsLoop bucket end_
      (loopBound (bucketStart bucket start) end_) (bucketStart bucket start)
    have e : (loopBound (bucketStart bucket start) end_ : Int) =
        max 0 (dayOf end_ - dayOf (bucketStart bucket start) + 1) := by
      rw [bucketStart_eq, dayOf_mul]
      generalize bucketFirstDay bucket (dayOf start) = f
      unfold loopBound dayOf msPerDay
      omega
    unfold buildBuckets
    simp only
    omega

theorem buildBuckets_terminates_witness :
    loopBound (bucketStart "month" 1705276800000) 1711929600000 ≤ 1000 ∧
      dayOf 1705276800000 + 1 ≤
        dayOf (addDays (bucketEnd "month" (bucketStart "month" 1705276800000)) 1) ∧
      buildBucketsLoop "month" 1711929600000 1000 (bucketStart "month" 1705276800000) =
        buildBuckets 1705276800000 1711929600000 "month" ∧
      ((buildBuckets 1705276800000 1711929600000 "month").length : Int) ≤
        max 0 (dayOf 1711929600000 - dayOf (bucketStart "month" 1705276800000) + 1) :=
  ⟨by decide, buildBuckets_terminates 1705276800000 1711929600000 1705276800000 "month" 1000
    (by decide)⟩

/-! ## Range defaulting -/

/-- C17. In both handlers `end` is the parsed `endDate` when one is given (a
non-empty string) and `now` otherwise; `start` is the parsed `startDate` when
one is given and otherwise `end` minus 29 days, so that the default range
spans 30 calendar days; the two handlers resolve the range identically. -/
theorem range_defaulting (parseISO : String → Int) (startDate endDate : Option String)
    (s e : String) (now : Int) :
    (productsRange parseISO startDate (some e) now).2 = (if e = "" then now else parseISO e) ∧
      (productsRange parseISO startDate none now).2 = now ∧
      (productsRange parseISO (some s) endDate now).1 =
        (if s = "" then (productsRange parseISO none endDate now).1 else parseISO s) ∧
      (productsRange parseISO none endDate now).1 =
        (productsRange parseISO none endDate now).2 - 29 * 86400000 ∧
      dayOf (productsRange parseISO none endDate now).2 -
        dayOf (productsRange parseISO none endDate now).1 + 1 = 30 ∧
      visitorsRange parseISO startDate endDate now =
        productsRange parseISO startDate endDate now := by
  refine ⟨?_, rfl, ?_, ?_, ?_, rfl⟩
  · unfold productsRange queryGiven
    by_cases h : e = ""
    · simp [h]
    · simp [h]
  · unfold productsRange queryGiven
    by_cases h : s = ""
    · simp [h]
    · simp [h]
  · unfold productsRange
    simp only [queryGiven]
    rw [addDays_eq]
    ring
  · unfold productsRange
    simp only [queryGiven]
    rw [addDays_eq]
    unfold dayOf msPerDay
    omega

/-! ## The first bucket -/

theorem bucketStart_idem (bucket : String) (t : Int) :
    bucketStart bucket (bucketStart bucket t) = bucketStart bucket t := by
  rw [bucketStart_eq, bucketStart_eq, dayOf_mul, bucketFirstDay_idem]

theorem bucketStart_le (bucket : String) (t : Int) : bucketStart bucket t ≤ t := by
  rw [bucketStart_eq]
  have := bucketFirstDay_le bucket (dayOf t)
  unfold dayOf at *
  unfold msPerDay at *
  generalize bucketFirstDay bucket (t / 86400000) = f at *
  omega

theorem le_bucketEnd (bucket : String) (t : Int) :
    t ≤ bucketEnd bucket (bucketStart bucket t) := by
  rw [bucketEnd_bucketStart]
  have := le_bucketLastDay bucket (dayOf t)
  unfold dayOf at *
  unfold msPerDay at *
  generalize bucketLastDay bucket (t / 86400000) = f at *
  omega

/-- The plan of a range whose aligned start is not after `end` begins with the
bucket of `start`. -/
theorem buildBuckets_head (start end_ : Int) (bucket : String)
    (h : bucketStart bucket start ≤ end_) :
    ∃ rest : List Bucket, buildBuckets start end_ bucket =
      { start := bucketStart bucket start, end_ := bucketEnd bucket (bucketStart bucket start),
        total := 0 } :: rest := by
  unfold buildBuckets
  simp only
  have hb : 1 ≤ loopBound (bucketStart bucket start) end_ := by
    unfold loopBound msPerDay
    omega
  obtain ⟨k, hk⟩ : ∃ k, loopBound (bucketStart bucket start) end_ = k + 1 :=
    ⟨loopBound (bucketStart bucket start) end_ - 1, by omega⟩
  rw [hk, buildBucketsLoop_succ, if_pos h, bucketStart_idem]
  exact ⟨_, rfl⟩

/-- C18. For calendar dates `start ≤ end` the plan is not empty and its first
bucket starts at the aligned floor of `start`: `start` itself for day, the
Monday on or before `start` for week, the 1st of the month of `start` for
month; hence `first.start ≤ start ≤ first.end`. -/
theorem first_bucket_aligned (start end_ : Int) (bucket : String) (hs : IsMidnight start)
    (h : start ≤ end_) :
    ∃ (first : Bucket) (rest : List Bucket),
      buildBuckets start end_ bucket = first :: rest ∧
      first.start = bucketStart bucket start ∧ first.start ≤ start ∧ start ≤ first.end_ ∧
      (bucket ≠ "month" → bucket ≠ "week" → first.start = start) ∧
      (bucket = "week" → getDay first.start = 1 ∧ dayOf start - 6 ≤ dayOf first.start ∧
        dayOf first.start ≤ dayOf start) ∧
      (bucket = "month" → getDate first.start = 1 ∧
        getFullYear first.start = getFullYear start ∧ getMonth first.start = getMonth start) := by
  obtain ⟨rest, hr⟩ := buildBuckets_head start end_ bucket ((bucketStart_le bucket start).trans h)
  refine ⟨_, rest, hr, rfl, bucketStart_le bucket start, le_bucketEnd bucket start, ?_, ?_, ?_⟩
  · intro h1 h2
    show bucketStart bucket start = start
    unfold bucketStart
    rw [if_neg h1, if_neg h2, startOfDay_eq]
    unfold IsMidnight timeWithinDay at hs
    unfold dayOf
    unfold msPerDay at *
    omega
  · intro hw
    show getDay (bucketStart bucket start) = 1 ∧ dayOf start - 6 ≤ dayOf (bucketStart bucket start) ∧
      dayOf (bucketStart bucket start) ≤ dayOf start
    subst hw
    rw [bucketStart_eq]
    unfold getDay bucketFirstDay
    rw [if_neg (by decide), if_pos rfl, dayOf_mul]
    omega
  · intro hm
    show getDate (bucketStart bucket start) = 1 ∧
      getFullYear (bucketStart bucket start) = getFullYear start ∧
      getMonth (bucketStart bucket start) = getMonth start
    subst hm
    rw [bucketStart_eq]
    unfold getDate getFullYear getMonth bucketFirstDay
    rw [if_pos rfl, dayOf_mul]
    obtain ⟨fy, fm, fd⟩ := civil_of_same_month (dayOf start) (firstDayOfMonth (dayOf start)) le_rfl
      ((firstDayOfMonth_le _).trans (le_lastDayOfMonth _))
    exact ⟨by rw [fd]; omega, fy, fm⟩

theorem first_bucket_aligned_witness :
    IsMidnight 1704844800000 ∧ (1704844800000 : Int) ≤ 1705190400000 ∧
      ∃ (first : Bucket) (rest : List Bucket),
        buildBuckets 1704844800000 1705190400000 "week" = first :: rest ∧
        first.start = bucketStart "week" 1704844800000 ∧ first.start ≤ 1704844800000 ∧
        1704844800000 ≤ first.end_ ∧
        ("week" ≠ "month" → "week" ≠ "week" → first.start = 1704844800000) ∧
        ("week" = "week" → getDay first.start = 1 ∧
          dayOf 1704844800000 - 6 ≤ dayOf first.start ∧
          dayOf first.start ≤ dayOf 1704844800000) ∧
        ("week" = "month" → getDate first.start = 1 ∧
          getFullYear first.start = getFullYear 1704844800000 ∧
          getMonth first.start = getMonth 1704844800000) :=
  ⟨by decide, by decide,
    first_bucket_aligned 1704844800000 1705190400000 "week" (by decide) (by decide)⟩

/-! ## Unknown granularity -/

theorem bucketStart_other (bucket : String) (h1 : bucket ≠ "month") (h2 : bucket ≠ "week")
    (t : Int) : bucketStart bucket t = bucketStart "day" t ∧
      bucketEnd bucket t = bucketEnd "day" t := by
  unfold bucketStart bucketEnd
  rw [if_neg h1, if_neg h2, if_neg h1, if_neg h2, if_neg (by decide), if_neg (by decide),
    if_neg (by decide), if_neg (by decide)]
  exact ⟨rfl, rfl⟩

theorem buildBucketsLoop_other (bucket : String) (h1 : bucket ≠ "month") (h2 : bucket ≠ "week")
    (end_ : Int) (fuel : Nat) :
    ∀ cur : Int, buildBucketsLoop bucket end_ fuel cur = buildBucketsLoop "day" end_ fuel cur := by
  induction fuel with
  | zero => intro cur; rfl
  | succ k ih =>
    intro cur
    rw [buildBucketsLoop_succ, buildBucketsLoop_succ, ih, (bucketStart_other bucket h1 h2 cur).1,
      (bucketStart_other bucket h1 h2 _).2]

/-- C20. Every granularity string other than "month" and "week" gives the plan
of "day", and so the same products and visitors responses; an absent `bucket`
parameter is "day". -/
theorem unknown_granularity_is_day (start end_ : Int) (bucket : String) (rows : List ProductRow)
    (vrows : List VisitorRow) (h1 : bucket ≠ "month") (h2 : bucket ≠ "week") :
    buildBuckets start end_ bucket = buildBuckets start end_ "day" ∧
      products start end_ bucket rows = products start end_ "day" rows ∧
      visitors start end_ bucket vrows = visitors start end_ "day" vrows ∧
      bucketParam none = "day" := by
  have key : buildBuckets start end_ bucket = buildBuckets start end_ "day" := by
    unfold buildBuckets
    simp only
    rw [buildBucketsLoop_other bucket h1 h2, (bucketStart_other bucket h1 h2 start).1]
  refine ⟨key, ?_, ?_, rfl⟩
  · unfold products productBuckets
    rw [key]
  · unfold visitors visitorBuckets
    rw [key]

theorem unknown_granularity_is_day_witness :
    "" ≠ "month" ∧ "" ≠ "week" ∧
      buildBuckets 1704067200000 1704844800000 "" =
        buildBuckets 1704067200000 1704844800000 "day" ∧
      products 1704067200000 1704844800000 "" [("2024-01-03", 2)] =
        products 1704067200000 1704844800000 "day" [("2024-01-03", 2)] ∧
      visitors 1704067200000 1704844800000 "" [("2024-01-03", { hits := 2, unique := 1 })] =
        visitors 1704067200000 1704844800000 "day"
          [("2024-01-03", { hits := 2, unique := 1 })] ∧
      bucketParam none = "day" :=
  ⟨by decide, by decide,
    unknown_granularity_is_day 1704067200000 1704844800000 "" [("2024-01-03", 2)]
      [("2024-01-03", { hits := 2, unique := 1 })] (by decide) (by decide)⟩

/-! ## Coverage before the day of `end` -/

theorem bucketLastDay_first (bucket : String) (n : Int) :
    bucketLastDay bucket (bucketFirstDay bucket n) = bucketLastDay bucket n := by
  unfold bucketFirstDay bucketLastDay
  split_ifs
  · exact lastDayOfMonth_first n
  · omega
  · rfl

/-- The loop reaches every day from the cursor's bucket on that lies in that
bucket or before the calendar day of `end`. -/
theorem buildBucketsLoop_cover (bucket : String) (end_ : Int) (fuel : Nat) :
    ∀ (cur d : Int), loopBound cur end_ ≤ fuel → cur ≤ end_ →
      bucketFirstDay bucket (dayOf cur) ≤ d →
      (d ≤ bucketLastDay bucket (dayOf cur) ∨ d < dayOf end_) →
      ∃ b ∈ buildBucketsLoop bucket end_ fuel cur, dayOf b.start ≤ d ∧ d ≤ dayOf b.end_ := by
  induction fuel with
  | zero =>
    intro cur d hf hc _ _
    unfold loopBound msPerDay at hf
    omega
  | succ k ih =>
    intro cur d hf hc h1 h2
    rw [buildBucketsLoop_succ, if_pos hc]
    by_cases hd : d ≤ bucketLastDay bucket (dayOf cur)
    · refine ⟨_, List.mem_cons_self _ _, ?_, ?_⟩
      · show dayOf (bucketStart bucket cur) ≤ d
        rw [bucketStart_eq, dayOf_mul]; exact h1
      · show d ≤ dayOf (bucketEnd bucket (bucketStart bucket cur))
        rw [bucketEnd_bucketStart, dayOf_mul_add]; exact hd
    · have hlt : d < dayOf end_ := h2.resolve_left hd
      have hn := loopBound_next bucket end_ cur hc
      have e := addDays_bucketEnd bucket cur
      have hc' : addDays (bucketEnd bucket (bucketStart bucket cur)) 1 ≤ end_ := by
        rw [e]
        generalize bucketLastDay bucket (dayOf cur) = last at hd
        unfold dayOf msPerDay at hlt
        omega
      have hfd : bucketFirstDay bucket
          (dayOf (addDays (bucketEnd bucket (bucketStart bucket cur)) 1)) ≤ d := by
        rw [e, dayOf_mul_add, bucketFirstDay_next]; omega
      obtain ⟨b, hb, hb'⟩ := ih _ d (by omega) hc' hfd (Or.inr hlt)
      exact ⟨b, List.mem_cons_of_mem _ hb, hb'⟩

/-- Two values of `end` on the same calendar day give the same buckets before
that day. -/
theorem buildBucketsLoop_mem_of_same_day (bucket : String) (e1 e2 : Int)
    (he : dayOf e1 = dayOf e2) (f1 : Nat) :
    ∀ (f2 : Nat) (cur : Int) (b : Bucket),
      (timeWithinDay cur = 0 ∨ bucketFirstDay bucket (dayOf cur) = dayOf cur) →
      loopBound cur e2 ≤ f2 → b ∈ buildBucketsLoop bucket e1 f1 cur →
      dayOf b.start < dayOf e1 → b ∈ buildBucketsLoop bucket e2 f2 cur := by
  induction f1 with
  | zero => intro f2 cur b _ _ hb _; simp [buildBucketsLoop] at hb
  | succ k ih =>
    intro f2 cur b hI hf hb hlt
    by_cases hc1 : cur ≤ e1
    · by_cases hc2 : cur ≤ e2
      · have hn := loopBound_next bucket e2 cur hc2
        obtain ⟨m, rfl⟩ : ∃ m, f2 = m + 1 := ⟨f2 - 1, by omega⟩
        rw [buildBucketsLoop_succ, if_pos hc1] at hb
        rw [buildBucketsLoop_succ, if_pos hc2]
        rcases List.mem_cons.mp hb with hb | hb
        · rw [hb]; exact List.mem_cons_self _ _
        · refine List.mem_cons_of_mem _ (ih m _ b (Or.inr ?_) (by omega) hb hlt)
          rw [addDays_bucketEnd, dayOf_mul_add, bucketFirstDay_next]
      · exfalso
        have hge := buildBucketsLoop_start_ge bucket e1 (k + 1) cur b hb
        have hday : bucketFirstDay bucket (dayOf cur) = dayOf e1 := by
          rcases hI with hI | hI
          · unfold timeWithinDay at hI
            unfold dayOf at he
            unfold msPerDay at *
            omega
          · rw [hI]
            unfold dayOf at *
            unfold msPerDay at *
            omega
        omega
    · rw [buildBucketsLoop_succ, if_neg hc1] at hb
      exact absurd hb (List.not_mem_nil b)

theorem buildBuckets_mem_of_same_day (start e1 e2 : Int) (bucket : String)
    (he : dayOf e1 = dayOf e2) (b : Bucket) (hb : b ∈ buildBuckets start e1 bucket)
    (hlt : dayOf b.start < dayOf e1) : b ∈ buildBuckets start e2 bucket := by
  refine buildBucketsLoop_mem_of_same_day bucket e1 e2 he _ _ _ b (Or.inl ?_) le_rfl hb hlt
  rw [bucketStart_eq]
  unfold timeWithinDay msPerDay
  omega

/-- A calendar day lies in at most one bucket of the plan. -/
theorem bucket_index_unique (start end_ : Int) (bucket : String) (i j : Nat) (b c : Bucket)
    (d : Int) (hi : (buildBuckets start end_ bucket)[i]? = some b)
    (hj : (buildBuckets start end_ bucket)[j]? = some c)
    (hb : dayOf b.start ≤ d ∧ d ≤ dayOf b.end_) (hc : dayOf c.start ≤ d ∧ d ≤ dayOf c.end_) :
    j = i := by
  obtain ⟨hi', rfl⟩ := List.getElem?_eq_some.mp hi
  obtain ⟨hj', rfl⟩ := List.getElem?_eq_some.mp hj
  have hp := List.pairwise_iff_getElem.mp
    (adjacent_pairwise _ (buildBuckets_chain start end_ bucket))
  rcases lt_trichotomy i j with h | h | h
  · have := hp i j hi' hj' h; omega
  · exact h.symm
  · have := hp j i hj' hi' h; omega

/-- C19. For instants `start ≤ end`, whatever the time of day of `end`, the
calendar day of `start` and every calendar day from it up to, but not
including, the calendar day of `end` lie in exactly one bucket of the plan;
and two values of `end` on the same calendar day cover the same days before
that day. -/
theorem coverage_before_end (start end_ end2 : Int) (bucket : String) (d : Int)
    (hse : start ≤ end_) (hd : dayOf start ≤ d) (hd2 : d < dayOf end_ ∨ d = dayOf start)
    (he : dayOf end2 = dayOf end_) :
    (∃ (i : Nat) (b : Bucket), (buildBuckets start end_ bucket)[i]? = some b ∧
        dayOf b.start ≤ d ∧ d ≤ dayOf b.end_ ∧
        ∀ (j : Nat) (c : Bucket), (buildBuckets start end_ bucket)[j]? = some c →
          dayOf c.start ≤ d → d ≤ dayOf c.end_ → j = i) ∧
      ∀ d2 : Int, d2 < dayOf end_ →
        ((∃ b ∈ buildBuckets start end_ bucket, dayOf b.start ≤ d2 ∧ d2 ≤ dayOf b.end_) ↔
          ∃ b ∈ buildBuckets start end2 bucket, dayOf b.start ≤ d2 ∧ d2 ≤ dayOf b.end_) := by
  constructor
  · have hcov : ∃ b ∈ buildBuckets start end_ bucket, dayOf b.start ≤ d ∧ d ≤ dayOf b.end_ := by
      unfold buildBuckets
      simp only
      apply buildBucketsLoop_cover bucket end_ _ _ d le_rfl
        ((bucketStart_le bucket start).trans hse)
      · rw [bucketStart_eq, dayOf_mul, bucketFirstDay_idem]
        exact (bucketFirstDay_le bucket _).trans hd
      · rw [bucketStart_eq, dayOf_mul, bucketLastDay_first]
        rcases hd2 with h | h
        · exact Or.inr h
        · left; rw [h]; exact le_bucketLastDay bucket _
    obtain ⟨b, hb, h1, h2⟩ := hcov
    obtain ⟨i, hi⟩ := List.mem_iff_getElem?.mp hb
    exact ⟨i, b, hi, h1, h2, fun j c hj c1 c2 =>
      bucket_index_unique start end_ bucket i j b c d hi hj ⟨h1, h2⟩ ⟨c1, c2⟩⟩
  · intro d2 hd2'
    constructor
    · rintro ⟨b, hb, h1, h2⟩
      exact ⟨b, buildBuckets_mem_of_same_day start end_ end2 bucket he.symm b hb (by omega),
        h1, h2⟩
    · rintro ⟨b, hb, h1, h2⟩
      exact ⟨b, buildBuckets_mem_of_same_day start end2 end_ bucket he b hb (by omega), h1, h2⟩

theorem coverage_before_end_witness :
    (1704067200000 : Int) ≤ 1704898800000 ∧ dayOf 1704067200000 ≤ 19727 ∧
      ((19727 : Int) < dayOf 1704898800000 ∨ (19727 : Int) = dayOf 1704067200000) ∧
      dayOf 1704844800000 = dayOf 1704898800000 ∧
      (∃ (i : Nat) (b : Bucket), (buildBuckets 1704067200000 1704898800000 "day")[i]? = some b ∧
        dayOf b.start ≤ 19727 ∧ 19727 ≤ dayOf b.end_ ∧
        ∀ (j : Nat) (c : Bucket), (buildBuckets 1704067200000 1704898800000 "day")[j]? = some c →
          dayOf c.start ≤ 19727 → 19727 ≤ dayOf c.end_ → j = i) ∧
      ∀ d2 : Int, d2 < dayOf 1704898800000 →
        ((∃ b ∈ buildBuckets 1704067200000 1704898800000 "day",
            dayOf b.start ≤ d2 ∧ d2 ≤ dayOf b.end_) ↔
          ∃ b ∈ buildBuckets 1704067200000 1704844800000 "day",
            dayOf b.start ≤ d2 ∧ d2 ≤ dayOf b.end_) :=
  ⟨by decide, by decide, Or.inl (by decide), by decide,
    coverage_before_end 1704067200000 1704898800000 1704844800000 "day" 19727 (by decide)
      (by decide) (Or.inl (by decide)) (by decide)⟩

/-! ## The folding loop in a zone -/

theorem localTime_fixed (z : Zone) (hz : z.before = z.after) (t : Int) :
    localTime z t = t + z.before := by
  unfold localTime localTZA
  by_cases h : t < z.transition
  · rw [if_pos h]
  · rw [if_neg h, hz]

theorem utcOfLocal_fixed (z : Zone) (hz : z.before = z.after) (tl : Int) :
    utcOfLocal z tl = tl - z.before := by
  unfold utcOfLocal
  by_cases h1 : tl - z.before < z.transition
  · rw [if_pos h1]
  · rw [if_neg h1]
    by_cases h2 : z.transition ≤ tl - z.after
    · rw [if_pos h2, hz]
    · rw [if_neg h2]

theorem startOfDayZ_fixed (z : Zone) (hz : z.before = z.after) (t : Int) :
    startOfDayZ z t = dayOfZ z t * 86400000 - z.before := by
  unfold startOfDayZ setHoursZ dayOfZ
  rw [utcOfLocal_fixed z hz, show ∀ u, setHours u 0 0 0 0 = dayOf u * 86400000 from startOfDay_eq]

theorem addDaysZ_fixed (z : Zone) (hz : z.before = z.after) (t k : Int) :
    addDaysZ z t k = t + k * 86400000 := by
  unfold addDaysZ setDateZ
  rw [utcOfLocal_fixed z hz,
    show setDate (localTime z t) (getDate (localTime z t) + k) = addDays (localTime z t) k from rfl,
    addDays_eq, localTime_fixed z hz]
  ring

theorem dayOfZ_fixed_midnight (z : Zone) (hz : z.before = z.after) (c : Int) :
    dayOfZ z (c * 86400000 - z.before) = c := by
  unfold dayOfZ
  rw [localTime_fixed z hz, sub_add_cancel, dayOf_mul]

theorem formatZ_eq_dayKey (z : Zone) (t : Int) : formatZ z t = dayKey (dayOfZ z t) := by
  unfold formatZ dayOfZ
  exact format_eq_dayKey _

theorem fixed_midnight_le_iff (z : Zone) (hz : z.before = z.after) (c x : Int) :
    c * 86400000 - z.before ≤ x ↔ c ≤ dayOfZ z x := by
  unfold dayOfZ
  rw [localTime_fixed z hz, ← midnight_le_iff]
  omega

theorem dayOfZ_min (z : Zone) (hz : z.before = z.after) (a b : Int) :
    dayOfZ z (min a b) = min (dayOfZ z a) (dayOfZ z b) := by
  unfold dayOfZ
  rw [localTime_fixed z hz, localTime_fixed z hz, localTime_fixed z hz, ← dayOf_min]
  congr 1
  omega

theorem addIfTruthyNumber_eq (dayMap : List (String × Int)) (key : String) (total : Int)
    (h : -9007199254740992 ≤ total + (dayMap.lookup key).getD 0 ∧
      total + (dayMap.lookup key).getD 0 ≤ 9007199254740992) :
    addIfTruthyNumber dayMap key total = some (total + (dayMap.lookup key).getD 0) := by
  unfold addIfTruthyNumber
  cases hl : dayMap.lookup key with
  | none => simp
  | some v =>
    rw [hl] at h
    simp only [Option.getD_some] at h
    by_cases hv : v = 0
    · simp [hv]
    · simp only [ne_eq, hv, not_false_eq_true, if_true, Option.getD_some]
      unfold numberAdd
      rw [if_pos h]

theorem foldDaysLoopZ_succ (z : Zone) (dayMap : List (String × Int)) (bEnd end_ : Int)
    (fuel : Nat) (cur total : Int) :
    foldDaysLoopZ z dayMap bEnd end_ (fuel + 1) cur total =
      if cur ≤ bEnd ∧ cur ≤ end_ then
        match addIfTruthyNumber dayMap (formatZ z cur) total with
        | some t => foldDaysLoopZ z dayMap bEnd end_ fuel (addDaysZ z cur 1) t
        | none => none
      else some total := rfl

/-- In a zone with a fixed offset, and while the running total stays within
±2^53, the inner loop adds up the looked-up values of the days from the
cursor's day to the earlier of the bucket's end and `end`. -/
theorem foldDaysLoopZ_eq (z : Zone) (hz : z.before = z.after) (dayMap : List (String × Int))
    (bEnd end_ : Int) (fuel : Nat) :
    ∀ (c total : Int), (min (dayOfZ z bEnd) (dayOfZ z end_) - c + 1).toNat + 1 ≤ fuel →
      (∀ k : Int, c ≤ k → k ≤ min (dayOfZ z bEnd) (dayOfZ z end_) →
        -9007199254740992 ≤ total + ∑ d in Finset.Icc c k, (dayMap.lookup (dayKey d)).getD 0 ∧
        total + ∑ d in Finset.Icc c k, (dayMap.lookup (dayKey d)).getD 0 ≤ 9007199254740992) →
      foldDaysLoopZ z dayMap bEnd end_ fuel (c * 86400000 - z.before) total =
        some (total + ∑ d in Finset.Icc c (min (dayOfZ z bEnd) (dayOfZ z end_)),
          (dayMap.lookup (dayKey d)).getD 0) := by
  induction fuel with
  | zero => intro c total h; omega
  | succ f ih =>
    intro c total hf hs
    rw [foldDaysLoopZ_succ]
    by_cases hc : c ≤ min (dayOfZ z bEnd) (dayOfZ z end_)
    · have h0 := hs c le_rfl hc
      rw [Finset.Icc_self, Finset.sum_singleton] at h0
      rw [if_pos ⟨(fixed_midnight_le_iff z hz c bEnd).mpr (by omega),
        (fixed_midnight_le_iff z hz c end_).mpr (by omega)⟩,
        formatZ_eq_dayKey, dayOfZ_fixed_midnight z hz, addIfTruthyNumber_eq _ _ _ h0]
      simp only
      rw [addDaysZ_fixed z hz,
        show c * 86400000 - z.before + 1 * 86400000 = (c + 1) * 86400000 - z.before by ring,
        ih (c + 1) _ (by omega), Icc_eq_insert c _ hc, Finset.sum_insert (by simp)]
      · congr 1; ring
      · intro k h1 h2
        have := hs k (by omega) h2
        rw [Icc_eq_insert c k (by omega), Finset.sum_insert (by simp)] at this
        omega
    · rw [if_neg (by
        rintro ⟨h1, h2⟩
        rw [fixed_midnight_le_iff z hz] at h1 h2
        omega), Finset.Icc_eq_empty (by omega)]
      simp

theorem total_of_buildBucketsLoopZ (z : Zone) (bucket : String) (end_ : Int) (fuel : Nat) :
    ∀ (cur : Int) (plan : List Bucket), buildBucketsLoopZ z bucket end_ fuel cur = some plan →
      ∀ b ∈ plan, b.total = 0 := by
  induction fuel with
  | zero => intro cur plan h; simp [buildBucketsLoopZ] at h
  | succ f ih =>
    intro cur plan h b hb
    unfold buildBucketsLoopZ at h
    by_cases hc : cur ≤ end_
    · rw [if_pos hc] at h
      simp only [Option.map_eq_some'] at h
      obtain ⟨rest, hrest, rfl⟩ := h
      rcases List.mem_cons.mp hb with hb | hb
      · rw [hb]
      · exact ih _ rest hrest b hb
    · rw [if_neg hc] at h
      rw [← Option.some.inj h] at hb
      exact absurd hb (List.not_mem_nil b)

/-- C6 (amended). In a time zone with a fixed offset, for rows with pairwise
distinct day keys whose running sums over the walked days stay within ±2^53
(where a `Number` is exact), the total of every bucket of the plan after the
products folding loop is the sum, over the days from the bucket's start to
the earlier of the bucket's end and `end`, of the value of the row for that
day, a day without a row counting 0. -/
theorem foldBucketZ_eq_referenceTotal (z : Zone) (start end_ : Int) (bucket : String)
    (rows : List ProductRow) (plan : List Bucket) (b : Bucket) (hz : z.before = z.after)
    (hplan : buildBucketsZ z start end_ bucket = some plan) (hb : b ∈ plan)
    (hnd : (rows.map Prod.fst).Nodup)
    (hsum : ∀ k : Int, dayOfZ z b.start ≤ k → k ≤ min (dayOfZ z b.end_) (dayOfZ z end_) →
      -9007199254740992 ≤ referenceTotal rows (dayOfZ z b.start) k ∧
      referenceTotal rows (dayOfZ z b.start) k ≤ 9007199254740992) :
    foldBucketZ z (buildDayMap rows) end_ b =
      some (referenceTotal rows (dayOfZ z b.start)
        (min (dayOfZ z b.end_) (dayOfZ z end_))) := by
  have h0 : b.total = 0 := total_of_buildBucketsLoopZ z bucket end_ _ _ plan hplan b hb
  have hl : ∀ d : Int, ((buildDayMap rows).lookup (dayKey d)).getD 0 = rowValue rows (dayKey d) := by
    intro d
    unfold rowValue
    rw [buildDayMap_eq, lookup_reverse_of_nodup _ _ hnd]
  unfold foldBucketZ
  simp only
  rw [startOfDayZ_fixed z hz, h0, foldDaysLoopZ_eq z hz]
  · rw [zero_add]
    unfold referenceTotal
    rw [Finset.sum_congr rfl fun d _ => hl d]
  · rw [← dayOfZ_min z hz]
    unfold zoneLoopBound dayOfZ
    rw [localTime_fixed z hz, localTime_fixed z hz]
    unfold dayOf msPerDay
    omega
  · intro k h1 h2
    have := hsum k h1 h2
    unfold referenceTotal at this
    rw [Finset.sum_congr rfl fun d _ => hl d, zero_add]
    exact this

set_option maxRecDepth 100000 in
theorem foldBucketZ_eq_referenceTotal_witness :
    (7200000 : Int) = 7200000 ∧
      buildBucketsZ { before := 7200000, after := 7200000, transition := 0 }
          1704060000000 1705183200000 "week" =
        some [{ start := 1704060000000, end_ := 1704664799999, total := 0 },
          { start := 1704664800000, end_ := 1705269599999, total := 0 }] ∧
      ([("2024-01-01", 3), ("2024-01-08", 4)].map Prod.fst).Nodup ∧
      foldBucketZ { before := 7200000, after := 7200000, transition := 0 }
          (buildDayMap [("2024-01-01", 3), ("2024-01-08", 4)]) 1705183200000
          { start := 1704664800000, end_ := 1705269599999, total := 0 } =
        some (referenceTotal [("2024-01-01", 3), ("2024-01-08", 4)]
          (dayOfZ { before := 7200000, after := 7200000, transition := 0 } 1704664800000)
          (min (dayOfZ { before := 7200000, after := 7200000, transition := 0 } 1705269599999)
            (dayOfZ { before := 7200000, after := 7200000, transition := 0 } 1705183200000))) :=
  have e1 : dayOfZ { before := 7200000, after := 7200000, transition := 0 } 1704664800000 =
      19730 := by decide
  have e2 : min (dayOfZ { before := 7200000, after := 7200000, transition := 0 } 1705269599999)
      (dayOfZ { before := 7200000, after := 7200000, transition := 0 } 1705183200000) =
      19736 := by decide
  ⟨rfl, by decide, by decide,
    foldBucketZ_eq_referenceTotal { before := 7200000, after := 7200000, transition := 0 }
      1704060000000 1705183200000 "week" [("2024-01-01", 3), ("2024-01-08", 4)]
      [{ start := 1704060000000, end_ := 1704664799999, total := 0 },
        { start := 1704664800000, end_ := 1705269599999, total := 0 }]
      { start := 1704664800000, end_ := 1705269599999, total := 0 } rfl (by decide) (by decide)
      (by decide) (by
        intro k h1 h2
        rw [e1] at h1 ⊢
        rw [e2] at h2
        interval_cases k <;> decide)⟩

set_option maxRecDepth 100000 in
/-- C6 (counterexample). In Africa/Cairo, where local midnight of 2024-04-26
does not exist, with start = 2024-04-25, end = 2024-04-28 (local midnights),
granularity month and the rows (2024-04-25, 2), (2024-04-28, 5), the plan is
the bucket of April 2024 and its total after the folding loop is 2, while the
rows of the days 04-01 .. 04-28 sum to 7: from 04-26 on the cursor is at
01:00, after the midnight `end` on the day of `end`. -/
theorem foldBucketZ_cairo_misses_end_day :
    formatZ cairo2024 1713996000000 = "2024-04-25" ∧
      timeWithinDay (localTime cairo2024 1713996000000) = 0 ∧
      formatZ cairo2024 1714251600000 = "2024-04-28" ∧
      timeWithinDay (localTime cairo2024 1714251600000) = 0 ∧
      ([("2024-04-25", 2), ("2024-04-28", 5)].map Prod.fst).Nodup ∧
      buildBucketsZ cairo2024 1713996000000 1714251600000 "month" =
        some [{ start := 1711922400000, end_ := 1714510799999, total := 0 }] ∧
      foldBucketZ cairo2024 (buildDayMap [("2024-04-25", 2), ("2024-04-28", 5)]) 1714251600000
          { start := 1711922400000, end_ := 1714510799999, total := 0 } = some 2 ∧
      referenceTotal [("2024-04-25", 2), ("2024-04-28", 5)] (dayOfZ cairo2024 1711922400000)
          (min (dayOfZ cairo2024 1714510799999) (dayOfZ cairo2024 1714251600000)) = 7 ∧
      timeWithinDay (localTime cairo2024 (addDaysZ cairo2024 1713996000000 1)) = 3600000 := by
  decide

/-- With a fixed offset of 0 the functions of the folding loop in a zone are
those of the wall-clock embedding. -/
theorem zone_zero_agrees (tr t k : Int) :
    startOfDayZ { before := 0, after := 0, transition := tr } t = startOfDay t ∧
      addDaysZ { before := 0, after := 0, transition := tr } t k = addDays t k ∧
      formatZ { before := 0, after := 0, transition := tr } t = format t := by
  have hl : ∀ u : Int, localTime { before := 0, after := 0, transition := tr } u = u := by
    intro u
    rw [localTime_fixed _ rfl]
    exact add_zero u
  have hu : ∀ u : Int, utcOfLocal { before := 0, after := 0, transition := tr } u = u := by
    intro u
    rw [utcOfLocal_fixed _ rfl]
    exact sub_zero u
  refine ⟨?_, ?_, ?_⟩
  · unfold startOfDayZ setHoursZ startOfDay
    rw [hu, hl]
  · unfold addDaysZ setDateZ addDays
    rw [hu, hl]
  · unfold formatZ
    rw [hl]

end Dashboard
